import Mathlib

/-!
# FrameTrace: `tools/windows/mf_device_enum.cpp`

A shallow embedding of the device-enumeration utility and the proofs of its
specification.  Byte strings (`std::string`) are lists of bytes, the output
streams are byte lists that grow by appending, and the platform (COM and
Media Foundation) is a script of outcomes that `main` consumes.
-/

set_option autoImplicit false

namespace FrameTrace

/-! ## Bytes and narrow string literals -/

/-- A byte string (`std::string`): the values of its `unsigned char`s, each
below 256. -/
abbrev Bytes := List Nat

/-- Every element is the value of a byte. -/
def IsByteString (s : Bytes) : Prop := ∀ c ∈ s, c < 256

/-- The bytes of a narrow C++ string literal (ASCII only in this program). -/
def bytesOf (s : String) : Bytes :=
  s.toList.map Char.toNat

/-! ## `JsonEscape` (source lines 66-89) -/

/-- The lookup table `const char hex[] = "0123456789ABCDEF"` of `JsonEscape`. -/
def JsonEscape.hex : Bytes := bytesOf "0123456789ABCDEF"

/-- The body of the range-for loop of `JsonEscape`: the `switch` on the byte
`c`, writing to the string stream `os`. -/
def JsonEscape.body (os : Bytes) (c : Nat) : Bytes :=
  match c with
  | 0x22 => os ++ bytesOf "\\\""
  | 0x5C => os ++ bytesOf "\\\\"
  | 0x08 => os ++ bytesOf "\\b"
  | 0x0C => os ++ bytesOf "\\f"
  | 0x0A => os ++ bytesOf "\\n"
  | 0x0D => os ++ bytesOf "\\r"
  | 0x09 => os ++ bytesOf "\\t"
  | _ =>
    if c < 0x20 then
      let os := os ++ bytesOf "\\u00"
      os ++ [JsonEscape.hex.getD ((c >>> 4) &&& 0x0F) 0]
         ++ [JsonEscape.hex.getD (c &&& 0x0F) 0]
    else
      os ++ [c]

/-- `std::string JsonEscape(const std::string& text)`: the loop over the bytes
of `text`, starting from an empty stream. -/
def JsonEscape (text : Bytes) : Bytes :=
  text.foldl JsonEscape.body []

/-! ## Number formatting of the output streams -/

/-- Uppercase hexadecimal digit of a value below sixteen. -/
def hexDigitUpper (d : Nat) : Nat :=
  if d < 10 then 0x30 + d else 0x41 + (d - 10)

/-- Digits of `n` in base `base`, most significant first, in front of `acc`;
`fuel` bounds the number of digits. -/
def digitsAux (base : Nat) : Nat → Nat → List Nat → List Nat
  | 0, _, acc => acc
  | fuel + 1, n, acc =>
    if n < base then n :: acc
    else digitsAux base fuel (n / base) (n % base :: acc)

/-- The digits of `n` in base `base`, without leading zeros (one digit for zero). -/
def digitsOf (base n : Nat) : List Nat := digitsAux base (n + 1) n []

/-- What `std::ostream << unsigned` writes: the decimal digits of `n`. -/
def decimal (n : Nat) : Bytes := (digitsOf 10 n).map (fun d => 0x30 + d)

/-! ## Platform status codes -/

/-- An `HRESULT` is a signed 32-bit status code. -/
abbrev HRESULT := Int

/-- Modelled from the spec: the Windows SDK macro `SUCCEEDED` is not part of
this repository; the spec speaks of success codes and failure codes, and a
status code is a success exactly when it is not negative. -/
def SUCCEEDED (hr : Int) : Bool := decide (0 ≤ hr)

/-- Modelled from the spec: the Windows SDK macro `FAILED` is not part of this
repository; a status code is a failure exactly when it is negative. -/
def FAILED (hr : Int) : Bool := decide (hr < 0)

/-- Modelled from the spec: the Windows SDK constant `RPC_E_CHANGED_MODE`
(`0x80010106` as a signed 32-bit value) is not part of this repository; it is
the failure code that the spec calls "already initialised in an incompatible
apartment mode by a prior caller". -/
def RPC_E_CHANGED_MODE : Int := 0x80010106 - 2 ^ 32

/-! ## `HResultToHex` (source lines 26-30) -/

/-- `HResultToHex`: `"0x"` followed by the uppercase hexadecimal digits of
`static_cast<unsigned long>(hr)`, a 32-bit unsigned value on this platform. -/
def HResultToHex (hr : Int) : Bytes :=
  let os : Bytes := []
  let os := os ++ bytesOf "0x"
  os ++ (digitsOf 16 (hr % 2 ^ 32).toNat).map hexDigitUpper

/-! ## `WideToUtf8` (source lines 32-64) -/

/-- A wide string (`wchar_t*`, not null): its UTF-16 code units up to the
terminator. -/
abbrev WideString := List Nat

/-- The platform function
`WideCharToMultiByte(CP_UTF8, 0, input, -1, buffer, cbMultiByte, nullptr, nullptr)`
as a function of `input` and `cbMultiByte`: its return value and the bytes it
stores at the start of the buffer (none when `cbMultiByte` is zero). -/
abbrev WideCharToMultiByteFn := WideString → Int → Int × Bytes

/-- `std::string WideToUtf8(const wchar_t* input)`; `none` is the null pointer. -/
def WideToUtf8 (WideCharToMultiByte : WideCharToMultiByteFn)
    (input : Option WideString) : Bytes :=
  match input with
  | none => []
  | some w =>
    let size := (WideCharToMultiByte w 0).1
    if size ≤ 0 then []
    else
      let output : Bytes := List.replicate (size - 1).toNat 0
      let call := WideCharToMultiByte w size
      let written := call.1
      let output := (call.2 ++ output.drop call.2.length).take (size - 1).toNat
      if written ≤ 0 then [] else output

/-! ## `DeviceEntry` (source lines 91-95) -/

/-- One element of the output. -/
structure DeviceEntry where
  index : Nat := 0
  friendly_name : Bytes := []
  symbolic_link : Bytes := []
  deriving DecidableEq, Repr

/-! ## The platform as a script of outcomes -/

/-- The two string attributes that `main` requests of a device. -/
inductive AttrKey where
  | friendlyName
  | symbolicLink
  deriving DecidableEq, Repr

/-- Outcome of one `GetAllocatedString` call: the status code and the out
pointer after the call (`none` is null, `some w` a wide string that the
platform allocated). -/
structure AttrReply where
  hr : Int
  value : Option WideString
  deriving DecidableEq, Repr

/-- One device-activation handle (`IMFActivate*`, not null) with its replies
to the two attribute requests. -/
structure Device where
  friendlyName : AttrReply
  symbolicLink : AttrReply
  deriving DecidableEq, Repr

/-- The reply of a device to the request for the attribute `key`. -/
def Device.reply (d : Device) : AttrKey → AttrReply
  | AttrKey.friendlyName => d.friendlyName
  | AttrKey.symbolicLink => d.symbolicLink

/-- Everything the platform answers during one run.  A successful
`MFCreateAttributes` hands out the attribute bag and a failed one leaves the
pointer null.  `devices` is the handle array that a successful
`MFEnumDeviceSources` stores (`none`: the array pointer stays null and the
count is zero); its length is `device_count`, a 32-bit count, so that the
loop counters of `main` never wrap. -/
structure Platform where
  coInitializeEx : Int
  mfStartup : Int
  mfCreateAttributes : Int
  setGUID : Int
  mfEnumDeviceSources : Int
  devices : Option (List Device)
  wideCharToMultiByte : WideCharToMultiByteFn

/-- A resource that the platform allocates and the program has to release. -/
inductive Resource where
  | attributeBag
  | handleArray
  | deviceHandle (i : Nat)
  | wideString (i : Nat) (key : AttrKey)
  deriving DecidableEq, Repr

/-- What the mock platform records: the calls made to it, every allocation it
hands out, and every release (`Release` on an interface, `CoTaskMemFree` on
memory). -/
inductive Event where
  | CoInitializeEx
  | MFStartup
  | MFCreateAttributes
  | SetGUID
  | MFEnumDeviceSources
  | GetAllocatedString (i : Nat) (key : AttrKey)
  | MFShutdown
  | CoUninitialize
  | alloc (r : Resource)
  | release (r : Resource)
  deriving DecidableEq, Repr

/-- The observable state of the process: both output streams and the record
of the mock platform. -/
structure Process where
  cout : Bytes := []
  cerr : Bytes := []
  trace : List Event := []
  deriving DecidableEq, Repr

/-- `std::cout << text`. -/
def Process.out (w : Process) (text : Bytes) : Process :=
  { w with cout := w.cout ++ text }

/-- `std::cerr << text`. -/
def Process.err (w : Process) (text : Bytes) : Process :=
  { w with cerr := w.cerr ++ text }

/-- The platform records one event. -/
def Process.record (w : Process) (e : Event) : Process :=
  { w with trace := w.trace ++ [e] }

/-- The platform records the allocation of `r` when `given` holds. -/
def Process.allocIf (w : Process) (given : Bool) (r : Resource) : Process :=
  if given then w.record (Event.alloc r) else w

/-! ## `main` (source lines 99-221) -/

/-- The local variables of `main` that outlive the `do { } while (false)`
block.  `attributes` tells whether the pointer is non-null; `devices` is
`none` for the null pointer and the array of handles otherwise. -/
structure Locals where
  attributes : Bool := false
  devices : Option (List Device) := none
  device_count : Nat := 0
  results : List DeviceEntry := []

/-- The text of one attribute: the conversion of the string when the request
succeeded and the pointer is not null, the empty string otherwise (source
lines 160-164 and 170-174). -/
def attributeText (p : Platform) (r : AttrReply) : Bytes :=
  if SUCCEEDED r.hr && r.value.isSome then WideToUtf8 p.wideCharToMultiByte r.value
  else []

/-- The device loop (source lines 147-184): `devs` are the handles
`devices[i]`, `devices[i+1]`, ... still to visit. -/
def deviceLoop (p : Platform) :
    List Device → Nat → List DeviceEntry → Process → List DeviceEntry × Process
  | [], _, results, w => (results, w)
  | d :: devs, i, results, w =>
    let w := w.record (Event.GetAllocatedString i AttrKey.friendlyName)
    let w := w.allocIf d.friendlyName.value.isSome (Resource.wideString i AttrKey.friendlyName)
    let friendly_name := attributeText p d.friendlyName
    let w := w.record (Event.GetAllocatedString i AttrKey.symbolicLink)
    let w := w.allocIf d.symbolicLink.value.isSome (Resource.wideString i AttrKey.symbolicLink)
    let symbolic_link := attributeText p d.symbolicLink
    let w := if d.friendlyName.value.isSome then
      w.record (Event.release (Resource.wideString i AttrKey.friendlyName)) else w
    let w := if d.symbolicLink.value.isSome then
      w.record (Event.release (Resource.wideString i AttrKey.symbolicLink)) else w
    let entry : DeviceEntry :=
      { index := i, friendly_name := friendly_name, symbolic_link := symbolic_link }
    deviceLoop p devs (i + 1) (results ++ [entry]) w

/-- The platform records the handles of a returned array, one per element. -/
def allocHandles : List Device → Nat → Process → Process
  | [], _, w => w
  | _ :: devs, i, w => allocHandles devs (i + 1) (w.record (Event.alloc (Resource.deviceHandle i)))

/-- The `do { ... } while (false)` block (source lines 124-185); every `break`
leaves with the locals as they are. -/
def enumerateBlock (p : Platform) (w : Process) : Locals × Process :=
  let l : Locals := {}
  let w := w.record Event.MFCreateAttributes
  let hr := p.mfCreateAttributes
  let w := w.allocIf (SUCCEEDED hr) Resource.attributeBag
  let l := { l with attributes := SUCCEEDED hr }
  if FAILED hr then
    (l, w.err (bytesOf "MFCreateAttributes failed: " ++ HResultToHex hr ++ bytesOf "\n"))
  else
    let w := w.record Event.SetGUID
    let hr := p.setGUID
    if FAILED hr then
      (l, w.err (bytesOf "SetGUID(MF_DEVSOURCE_ATTRIBUTE_SOURCE_TYPE) failed: "
        ++ HResultToHex hr ++ bytesOf "\n"))
    else
      let w := w.record Event.MFEnumDeviceSources
      let hr := p.mfEnumDeviceSources
      if FAILED hr then
        (l, w.err (bytesOf "MFEnumDeviceSources failed: " ++ HResultToHex hr ++ bytesOf "\n"))
      else
        let w := w.allocIf p.devices.isSome Resource.handleArray
        let w := allocHandles (p.devices.getD []) 0 w
        let l := { l with devices := p.devices, device_count := (p.devices.getD []).length }
        let r := deviceLoop p (p.devices.getD []) 0 l.results w
        ({ l with results := r.1 }, r.2)

/-- The loop of the emitter (source lines 188-199): `rest` are the entries
`results[i]`, `results[i+1]`, ... still to write and `size` is
`results.size()`. -/
def emitLoop (size : Nat) : List DeviceEntry → Nat → Bytes → Bytes
  | [], _, cout => cout
  | d :: rest, i, cout =>
    let cout := cout ++ bytesOf "  \x7b\n"
      ++ bytesOf "    \"index\": " ++ decimal d.index ++ bytesOf ",\n"
      ++ bytesOf "    \"friendly_name\": \"" ++ JsonEscape d.friendly_name ++ bytesOf "\",\n"
      ++ bytesOf "    \"symbolic_link\": \"" ++ JsonEscape d.symbolic_link ++ bytesOf "\"\n"
      ++ bytesOf "  \x7d"
    let cout := if i + 1 < size then cout ++ bytesOf "," else cout
    let cout := cout ++ bytesOf "\n"
    emitLoop size rest (i + 1) cout

/-- The emitter (source lines 187-200), appending to what `cout` holds. -/
def emit (results : List DeviceEntry) (cout : Bytes) : Bytes :=
  let cout := cout ++ bytesOf "[\n"
  let cout := emitLoop results.length results 0 cout
  cout ++ bytesOf "]\n"

/-- The release of the device handles (source lines 203-207). -/
def releaseLoop : List Device → Nat → Process → Process
  | [], _, w => w
  | _ :: devs, i, w =>
    releaseLoop devs (i + 1) (w.record (Event.release (Resource.deviceHandle i)))

/-- The outcome of a run: the exit status, the vector `results` as it stands
when `main` returns, and the process state. -/
structure Run where
  exitCode : Int
  results : List DeviceEntry
  process : Process

/-- `int main()` against the platform script `p`. -/
def main (p : Platform) : Run :=
  let w : Process := {}
  let w := w.record Event.CoInitializeEx
  let hr := p.coInitializeEx
  let com_ready := SUCCEEDED hr || hr == RPC_E_CHANGED_MODE
  let coinit_succeeded := SUCCEEDED hr
  if !com_ready then
    let w := w.err (bytesOf "Failed to initialize COM: " ++ HResultToHex hr ++ bytesOf "\n")
    let w := w.out (bytesOf "[]\n")
    { exitCode := 1, results := [], process := w }
  else
    let w := w.record Event.MFStartup
    let hr := p.mfStartup
    if FAILED hr then
      let w := w.err (bytesOf "MFStartup failed: " ++ HResultToHex hr ++ bytesOf "\n")
      let w := if coinit_succeeded then w.record Event.CoUninitialize else w
      let w := w.out (bytesOf "[]\n")
      { exitCode := 1, results := [], process := w }
    else
      let block := enumerateBlock p w
      let l := block.1
      let w := block.2
      let w := { w with cout := emit l.results w.cout }
      let w := match l.devices with
        | some devices =>
          (releaseLoop devices 0 w).record (Event.release Resource.handleArray)
        | none => w
      let w := if l.attributes then w.record (Event.release Resource.attributeBag) else w
      let w := w.record Event.MFShutdown
      let w := if coinit_succeeded then w.record Event.CoUninitialize else w
      { exitCode := 0, results := l.results, process := w }

/-! ## The per-byte reference definition of the escaping (specification side) -/

/-- The escape `e(c)` of one byte, as the specification words it. -/
def escapeByteRef (c : Nat) : Bytes :=
  if c = 0x22 then [0x5C, 0x22]
  else if c = 0x5C then [0x5C, 0x5C]
  else if c = 0x08 then [0x5C, 0x62]
  else if c = 0x0C then [0x5C, 0x66]
  else if c = 0x0A then [0x5C, 0x6E]
  else if c = 0x0D then [0x5C, 0x72]
  else if c = 0x09 then [0x5C, 0x74]
  else if c < 0x20 then
    [0x5C, 0x75, 0x30, 0x30, hexDigitUpper (c / 16), hexDigitUpper (c % 16)]
  else [c]

/-- The reference escaping: the concatenation of the per-byte escapes. -/
def JsonEscapeRef (s : Bytes) : Bytes :=
  (s.map escapeByteRef).flatten

/-! ## A JSON string decoder (RFC 8259, section 7), at the byte level -/

/-- What one step of scanning a string literal yields: a byte taken as it
stands (or named by a two-character escape), or the 16-bit code unit of a
`\uXXXX` escape. -/
inductive StrItem where
  | byte (b : Nat)
  | unit (u : Nat)
  deriving DecidableEq, Repr

/-- Value of a hexadecimal digit, either case. -/
def hexVal (c : Nat) : Option Nat :=
  if 0x30 ≤ c ∧ c ≤ 0x39 then some (c - 0x30)
  else if 0x41 ≤ c ∧ c ≤ 0x46 then some (c - 0x41 + 10)
  else if 0x61 ≤ c ∧ c ≤ 0x66 then some (c - 0x61 + 10)
  else none

/-- The byte named by a two-character escape `\e`. -/
def simpleEscape (e : Nat) : Option Nat :=
  if e = 0x22 then some 0x22
  else if e = 0x5C then some 0x5C
  else if e = 0x2F then some 0x2F
  else if e = 0x62 then some 0x08
  else if e = 0x66 then some 0x0C
  else if e = 0x6E then some 0x0A
  else if e = 0x72 then some 0x0D
  else if e = 0x74 then some 0x09
  else none

/-- Scan the inside of a string literal up to its closing quote: the items
read and the input after the quote.  Fails on an unescaped control byte, a
malformed escape, or a missing closing quote. -/
def scanString : Bytes → Option (List StrItem × Bytes)
  | [] => none
  | c :: rest =>
    if c = 0x22 then some ([], rest)
    else if c = 0x5C then
      match rest with
      | [] => none
      | e :: rest1 =>
        if e = 0x75 then
          match rest1 with
          | h1 :: h2 :: h3 :: h4 :: rest2 =>
            match hexVal h1, hexVal h2, hexVal h3, hexVal h4 with
            | some a, some b, some c, some d =>
              (scanString rest2).map
                (fun r => (StrItem.unit (((a * 16 + b) * 16 + c) * 16 + d) :: r.1, r.2))
            | _, _, _, _ => none
          | _ => none
        else
          match simpleEscape e with
          | some b => (scanString rest1).map (fun r => (StrItem.byte b :: r.1, r.2))
          | none => none
    else if c < 0x20 then none
    else (scanString rest).map (fun r => (StrItem.byte c :: r.1, r.2))

/-- UTF-8 encoding of a code point. -/
def utf8Encode (cp : Nat) : Bytes :=
  if cp < 0x80 then [cp]
  else if cp < 0x800 then [(0xC0 + cp / 64), (0x80 + cp % 64)]
  else if cp < 0x10000 then
    [(0xE0 + cp / 4096), (0x80 + cp / 64 % 64), (0x80 + cp % 64)]
  else
    [(0xF0 + cp / 262144 % 8), (0x80 + cp / 4096 % 64),
     (0x80 + cp / 64 % 64), (0x80 + cp % 64)]

/-- The replacement character U+FFFD, written for a surrogate without its pair. -/
def utf8Replacement : Bytes := utf8Encode 0xFFFD

/-- The UTF-8 encoding of a run of UTF-16 code units.  `pending` holds a high
surrogate waiting for its low half; a surrogate pair becomes one code point
and a surrogate without its pair becomes U+FFFD. -/
def utf16Render : Option Nat → WideString → Bytes
  | none, [] => []
  | some _, [] => utf8Replacement
  | none, u :: rest =>
    if 0xD800 ≤ u ∧ u < 0xDC00 then utf16Render (some u) rest
    else if 0xDC00 ≤ u ∧ u < 0xE000 then utf8Replacement ++ utf16Render none rest
    else utf8Encode u ++ utf16Render none rest
  | some hi, u :: rest =>
    if 0xDC00 ≤ u ∧ u < 0xE000 then
      utf8Encode (0x10000 + (hi - 0xD800) * 0x400 + (u - 0xDC00)) ++ utf16Render none rest
    else if 0xD800 ≤ u ∧ u < 0xDC00 then utf8Replacement ++ utf16Render (some u) rest
    else utf8Replacement ++ utf8Encode u ++ utf16Render none rest

/-- The UTF-8 conversion of a wide string: the encoding of its code points,
without a terminator. -/
def utf16ToUtf8 (w : WideString) : Bytes := utf16Render none w

/-- Modelled from the spec: the conversion of section 4.3 is to UTF-8
(`CP_UTF8` in the source).  The platform converter `f` converts `w` when a
size query (`cbMultiByte = 0`) returns the number of bytes of the encoding
with its terminator, and a call with a buffer of that size stores the encoding
followed by the terminator and returns their number. -/
def convertsToUtf8 (f : WideCharToMultiByteFn) (w : WideString) : Prop :=
  (f w 0).1 = ((utf16ToUtf8 w).length : Int) + 1 ∧
  f w (((utf16ToUtf8 w).length : Int) + 1)
    = (((utf16ToUtf8 w).length : Int) + 1, utf16ToUtf8 w ++ [0])

instance (f : WideCharToMultiByteFn) (w : WideString) : Decidable (convertsToUtf8 f w) := by
  unfold convertsToUtf8; infer_instance

/-- The text that the claim gives to a field: the UTF-8 conversion of the
string when the request succeeded with a non-null string, the empty string
otherwise. -/
def utf8Field (r : AttrReply) : Bytes :=
  match r.value with
  | some w => if SUCCEEDED r.hr then utf16ToUtf8 w else []
  | none => []

/-- Turn scanned items into the decoded bytes.  `pending` holds a high
surrogate waiting for its low half; a surrogate pair becomes one code point. -/
def renderItems : Option Nat → List StrItem → Bytes
  | none, [] => []
  | some _, [] => utf8Replacement
  | none, StrItem.byte b :: rest => b :: renderItems none rest
  | some _, StrItem.byte b :: rest => utf8Replacement ++ b :: renderItems none rest
  | none, StrItem.unit u :: rest =>
    if 0xD800 ≤ u ∧ u < 0xDC00 then renderItems (some u) rest
    else if 0xDC00 ≤ u ∧ u < 0xE000 then utf8Replacement ++ renderItems none rest
    else utf8Encode u ++ renderItems none rest
  | some hi, StrItem.unit u :: rest =>
    if 0xDC00 ≤ u ∧ u < 0xE000 then
      utf8Encode (0x10000 + (hi - 0xD800) * 0x400 + (u - 0xDC00)) ++ renderItems none rest
    else if 0xD800 ≤ u ∧ u < 0xDC00 then utf8Replacement ++ renderItems (some u) rest
    else utf8Replacement ++ utf8Encode u ++ renderItems none rest

/-- Read a string literal whose opening quote has been consumed: the decoded
bytes and the input after the closing quote. -/
def parseStringTail (input : Bytes) : Option (Bytes × Bytes) :=
  (scanString input).map (fun r => (renderItems none r.1, r.2))

/-- Decode `body` as the whole inside of a string literal: it is followed by
the closing quote, and nothing of it may be left over. -/
def decodeStringBody (body : Bytes) : Option (Bytes) :=
  match parseStringTail (body ++ [0x22]) with
  | some (s, []) => some s
  | _ => none

/-! ## A JSON parser (RFC 8259), at the byte level -/

/-- A JSON number as it is written: the sign, the integer part, the digits of
the fraction (none when there is no fraction) and the exponent. -/
structure JNumber where
  negative : Bool
  integer : Nat
  fraction : List Nat
  exponent : Option Int
  deriving DecidableEq, Repr

/-- A JSON value.  An object keeps its members in the order of the text,
repeated keys included. -/
inductive JVal where
  | null
  | bool (b : Bool)
  | number (n : JNumber)
  | string (s : Bytes)
  | array (items : List JVal)
  | object (members : List (Bytes × JVal))

/-- Skip insignificant whitespace: space, tab, line feed, carriage return. -/
def skipWs : Bytes → Bytes
  | [] => []
  | c :: rest =>
    if c = 0x20 ∨ c = 0x09 ∨ c = 0x0A ∨ c = 0x0D then skipWs rest else c :: rest

/-- The leading decimal digits of the input, as values, and what follows them. -/
def takeDigits : Bytes → List Nat × Bytes
  | [] => ([], [])
  | c :: rest =>
    if 0x30 ≤ c ∧ c ≤ 0x39 then ((c - 0x30) :: (takeDigits rest).1, (takeDigits rest).2)
    else ([], c :: rest)

/-- The value of a list of decimal digits, most significant first. -/
def fromDigits (ds : List Nat) : Nat := ds.foldl (fun a d => a * 10 + d) 0

/-- The optional fraction of a number: a point and at least one digit. -/
def parseFraction (input : Bytes) : Option (List Nat × Bytes) :=
  match input with
  | [] => some ([], [])
  | c :: rest =>
    if c = 0x2E then
      if (takeDigits rest).1 = [] then none else some (takeDigits rest)
    else some ([], c :: rest)

/-- The digits of an exponent, with its sign applied. -/
def exponentDigits (negative : Bool) (input : Bytes) : Option (Option Int × Bytes) :=
  if (takeDigits input).1 = [] then none
  else
    let magnitude : Int := fromDigits (takeDigits input).1
    some (some (if negative then -magnitude else magnitude), (takeDigits input).2)

/-- The optional exponent of a number: `e` or `E`, an optional sign, and at
least one digit. -/
def parseExponent (input : Bytes) : Option (Option Int × Bytes) :=
  match input with
  | [] => some (none, [])
  | c :: rest =>
    if c = 0x65 ∨ c = 0x45 then
      match rest with
      | [] => none
      | s :: rest1 =>
        if s = 0x2B then exponentDigits false rest1
        else if s = 0x2D then exponentDigits true rest1
        else exponentDigits false (s :: rest1)
    else some (none, c :: rest)

/-- The digits of the integer part: at least one, and no leading zero in front
of further digits. -/
def parseInteger (input : Bytes) : Option (Nat × Bytes) :=
  let ds := (takeDigits input).1
  if ds = [] then none
  else if ds.head? = some 0 ∧ ds.length ≠ 1 then none
  else some (fromDigits ds, (takeDigits input).2)

/-- Read a number: optional minus, integer part, optional fraction, optional
exponent. -/
def parseNumber (input : Bytes) : Option (JNumber × Bytes) :=
  let negative : Bool := decide (input.head? = some 0x2D)
  let afterSign := if negative then input.tail else input
  match parseInteger afterSign with
  | none => none
  | some (int, rest1) =>
    match parseFraction rest1 with
    | none => none
    | some (frac, rest2) =>
      match parseExponent rest2 with
      | none => none
      | some (exp, rest3) =>
        some ({ negative := negative, integer := int, fraction := frac, exponent := exp }, rest3)

/-- Read one of the three literal names. -/
def parseLiteral (word : Bytes) (value : JVal) (input : Bytes) : Option (JVal × Bytes) :=
  if input.take word.length = word then some (value, input.drop word.length) else none

/-- The elements of an array after the first has been found to exist: values
separated by commas up to the closing bracket.  `pv` reads one value and `n`
bounds the number of elements. -/
def parseElements (pv : Bytes → Option (JVal × Bytes)) :
    Nat → Bytes → List JVal → Option (List JVal × Bytes)
  | 0, _, _ => none
  | n + 1, input, acc =>
    match pv input with
    | none => none
    | some (v, rest) =>
      match skipWs rest with
      | [] => none
      | c :: rest1 =>
        if c = 0x2C then parseElements pv n rest1 (acc ++ [v])
        else if c = 0x5D then some (acc ++ [v], rest1)
        else none

/-- The members of an object after the first has been found to exist: a
string, a colon and a value each, separated by commas up to the closing brace. -/
def parseMembers (pv : Bytes → Option (JVal × Bytes)) :
    Nat → Bytes → List (Bytes × JVal) → Option (List (Bytes × JVal) × Bytes)
  | 0, _, _ => none
  | n + 1, input, acc =>
    match skipWs input with
    | [] => none
    | q :: rest0 =>
      if q = 0x22 then
        match parseStringTail rest0 with
        | none => none
        | some (key, rest1) =>
          match skipWs rest1 with
          | [] => none
          | colon :: rest2 =>
            if colon = 0x3A then
              match pv rest2 with
              | none => none
              | some (v, rest3) =>
                match skipWs rest3 with
                | [] => none
                | c :: rest4 =>
                  if c = 0x2C then parseMembers pv n rest4 (acc ++ [(key, v)])
                  else if c = 0x7D then some (acc ++ [(key, v)], rest4)
                  else none
            else none
      else none

/-- Read the value that starts with the byte `c`; `pv` reads a nested value. -/
def parseValueAt (pv : Bytes → Option (JVal × Bytes)) (c : Nat) (rest : Bytes) :
    Option (JVal × Bytes) :=
  if c = 0x22 then (parseStringTail rest).map (fun r => (JVal.string r.1, r.2))
  else if c = 0x5B then
    match skipWs rest with
    | [] => none
    | c2 :: rest2 =>
      if c2 = 0x5D then some (JVal.array [], rest2)
      else (parseElements pv rest.length rest []).map (fun r => (JVal.array r.1, r.2))
  else if c = 0x7B then
    match skipWs rest with
    | [] => none
    | c2 :: rest2 =>
      if c2 = 0x7D then some (JVal.object [], rest2)
      else (parseMembers pv rest.length rest []).map (fun r => (JVal.object r.1, r.2))
  else if c = 0x74 then parseLiteral (bytesOf "true") (JVal.bool true) (c :: rest)
  else if c = 0x66 then parseLiteral (bytesOf "false") (JVal.bool false) (c :: rest)
  else if c = 0x6E then parseLiteral (bytesOf "null") JVal.null (c :: rest)
  else (parseNumber (c :: rest)).map (fun r => (JVal.number r.1, r.2))

/-- Read one value, whitespace in front of it skipped; `fuel` bounds the depth
of nesting. -/
def parseValue : Nat → Bytes → Option (JVal × Bytes)
  | 0, _ => none
  | fuel + 1, input =>
    match skipWs input with
    | [] => none
    | c :: rest => parseValueAt (parseValue fuel) c rest

/-- Read a JSON text: one value, with nothing but whitespace after it. -/
def parseJson (text : Bytes) : Option JVal :=
  match parseValue (text.length + 1) text with
  | none => none
  | some (v, rest) => if skipWs rest = [] then some v else none

/-- One step of the automaton for well-formed UTF-8 (RFC 3629: no overlong
form, no surrogate, nothing above U+10FFFF).  In the state `(need, lo, hi)`,
`need` continuation bytes are still due and the next of them has to lie
between `lo` and `hi`; the result is the state after the byte `b`, if `b` is
allowed. -/
def utf8Next (need lo hi b : Nat) : Option (Nat × Nat × Nat) :=
  if need = 0 then
    if b < 0x80 then some (0, 0x80, 0xBF)
    else if 0xC2 ≤ b ∧ b ≤ 0xDF then some (1, 0x80, 0xBF)
    else if b = 0xE0 then some (2, 0xA0, 0xBF)
    else if b = 0xED then some (2, 0x80, 0x9F)
    else if 0xE1 ≤ b ∧ b ≤ 0xEF then some (2, 0x80, 0xBF)
    else if b = 0xF0 then some (3, 0x90, 0xBF)
    else if 0xF1 ≤ b ∧ b ≤ 0xF3 then some (3, 0x80, 0xBF)
    else if b = 0xF4 then some (3, 0x80, 0x8F)
    else none
  else if 0x80 ≤ b ∧ lo ≤ b ∧ b ≤ hi then some (need - 1, 0x80, 0xBF)
  else none

/-- Run the automaton from the state `(need, lo, hi)`: the text is accepted
when no continuation byte is due at its end. -/
def utf8Run : Nat → Nat → Nat → Bytes → Bool
  | need, _, _, [] => decide (need = 0)
  | need, lo, hi, b :: rest =>
    match utf8Next need lo hi b with
    | some st => utf8Run st.1 st.2.1 st.2.2 rest
    | none => false

/-- Well-formed UTF-8. -/
def validUtf8 (s : Bytes) : Bool := utf8Run 0 0x80 0xBF s

/-- The JSON value that stands for one entry: an object with the three keys in
order, the index a plain non-negative integer. -/
def entryJson (e : DeviceEntry) : JVal :=
  JVal.object
    [ (bytesOf "index",
        JVal.number { negative := false, integer := e.index, fraction := [], exponent := none }),
      (bytesOf "friendly_name", JVal.string e.friendly_name),
      (bytesOf "symbolic_link", JVal.string e.symbolic_link) ]

/-- The item the scanner reads back from the escape of the byte `c`: a
`\u00XX` escape gives a code unit, everything else the byte itself. -/
def itemOf (c : Nat) : StrItem :=
  if c < 0x20 ∧ c ≠ 0x08 ∧ c ≠ 0x0C ∧ c ≠ 0x0A ∧ c ≠ 0x0D ∧ c ≠ 0x09
  then StrItem.unit c else StrItem.byte c

/-! ## Closed forms of what the loops of `main` do (specification side) -/

/-- The entry that the device loop builds for the device `d` at position `i`:
each field is the conversion of the attribute when the request succeeded with
a non-null string, and empty otherwise. -/
def entryOf (p : Platform) (i : Nat) (d : Device) : DeviceEntry :=
  { index := i
    friendly_name :=
      if SUCCEEDED d.friendlyName.hr = true ∧ d.friendlyName.value ≠ none
      then WideToUtf8 p.wideCharToMultiByte d.friendlyName.value else []
    symbolic_link :=
      if SUCCEEDED d.symbolicLink.hr = true ∧ d.symbolicLink.value ≠ none
      then WideToUtf8 p.wideCharToMultiByte d.symbolicLink.value else [] }

/-- The entries for the devices `devs`, the first of them at position `i`. -/
def entriesFrom (p : Platform) : List Device → Nat → List DeviceEntry
  | [], _ => []
  | d :: devs, i => entryOf p i d :: entriesFrom p devs (i + 1)

/-- What the platform records during the visit of the device at position `i`. -/
def visitEvents (i : Nat) (d : Device) : List Event :=
  [Event.GetAllocatedString i AttrKey.friendlyName]
    ++ (if d.friendlyName.value.isSome
        then [Event.alloc (Resource.wideString i AttrKey.friendlyName)] else [])
    ++ [Event.GetAllocatedString i AttrKey.symbolicLink]
    ++ (if d.symbolicLink.value.isSome
        then [Event.alloc (Resource.wideString i AttrKey.symbolicLink)] else [])
    ++ (if d.friendlyName.value.isSome
        then [Event.release (Resource.wideString i AttrKey.friendlyName)] else [])
    ++ (if d.symbolicLink.value.isSome
        then [Event.release (Resource.wideString i AttrKey.symbolicLink)] else [])

/-- What the platform records during the device loop over `devs`. -/
def loopEvents : List Device → Nat → List Event
  | [], _ => []
  | d :: devs, i => visitEvents i d ++ loopEvents devs (i + 1)

/-- The handle allocations of an array of `devs`, the first at position `i`. -/
def handleAllocs : List Device → Nat → List Event
  | [], _ => []
  | _ :: devs, i => Event.alloc (Resource.deviceHandle i) :: handleAllocs devs (i + 1)

/-- The handle releases of an array of `devs`, the first at position `i`. -/
def handleReleases : List Device → Nat → List Event
  | [], _ => []
  | _ :: devs, i => Event.release (Resource.deviceHandle i) :: handleReleases devs (i + 1)

/-- The component-object runtime is usable: the initialisation returned a
success code or `RPC_E_CHANGED_MODE`. -/
def comUsable (p : Platform) : Prop :=
  SUCCEEDED p.coInitializeEx = true ∨ p.coInitializeEx = RPC_E_CHANGED_MODE

instance (p : Platform) : Decidable (comUsable p) := by
  unfold comUsable; infer_instance

/-- Bootstrap succeeded: the component-object runtime is usable and the media
framework started. -/
def bootstrapOk (p : Platform) : Prop :=
  comUsable p ∧ SUCCEEDED p.mfStartup = true

instance (p : Platform) : Decidable (bootstrapOk p) := by
  unfold bootstrapOk; infer_instance

/-- Bootstrap, the construction of the filter and the enumerator all succeeded. -/
def enumerated (p : Platform) : Prop :=
  bootstrapOk p ∧ SUCCEEDED p.mfCreateAttributes = true ∧ SUCCEEDED p.setGUID = true ∧
    SUCCEEDED p.mfEnumDeviceSources = true

instance (p : Platform) : Decidable (enumerated p) := by
  unfold enumerated; infer_instance

/-- The devices that the enumerator returns (none when the array is null). -/
def Platform.deviceList (p : Platform) : List Device := p.devices.getD []

/-- The device at position `n` of `devs` answers the request for `key` with a
non-null string. -/
def suppliesAt (devs : List Device) (n : Nat) (key : AttrKey) : Bool :=
  match devs[n]? with
  | some d => (d.reply key).value.isSome
  | none => false

/-- The resources that the platform hands out during the run against `p`:
the attribute bag when its creation is reached and succeeds; the handle array
(when its pointer is not null), each of its handles, and each attribute string
returned as a non-null pointer, when the enumeration takes place. -/
def handedOut (p : Platform) : Resource → Prop
  | Resource.attributeBag => bootstrapOk p ∧ SUCCEEDED p.mfCreateAttributes = true
  | Resource.handleArray => enumerated p ∧ p.devices.isSome = true
  | Resource.deviceHandle i => enumerated p ∧ i < p.deviceList.length
  | Resource.wideString i key => enumerated p ∧ suppliesAt p.deviceList i key = true

instance (p : Platform) (r : Resource) : Decidable (handedOut p r) := by
  cases r <;> unfold handedOut <;> infer_instance

/-- The teardown of the component-object runtime, done when this run
initialised it. -/
def coTeardown (p : Platform) : List Event :=
  if SUCCEEDED p.coInitializeEx = true then [Event.CoUninitialize] else []

/-- The events of releasing the handle array `devices`: each handle, then the
array itself; nothing when the pointer is null. -/
def arrayReleases : Option (List Device) → List Event
  | some devices => handleReleases devices 0 ++ [Event.release Resource.handleArray]
  | none => []

/-! ## The output format as the specification words it -/

/-- The text of one element: its five lines, the closing brace followed by a
comma unless the element is the last one. -/
def elementText (e : DeviceEntry) (last : Bool) : Bytes :=
  bytesOf "  \x7b\n"
    ++ (bytesOf "    \"index\": " ++ decimal e.index ++ bytesOf ",\n")
    ++ (bytesOf "    \"friendly_name\": \"" ++ JsonEscape e.friendly_name ++ bytesOf "\",\n")
    ++ (bytesOf "    \"symbolic_link\": \"" ++ JsonEscape e.symbolic_link ++ bytesOf "\"\n")
    ++ (bytesOf "  \x7d" ++ (if last then [] else bytesOf ",") ++ bytesOf "\n")

/-- The whole text for the entries `es`: the opening line, the elements in
order, the closing line. -/
def formatRef (es : List DeviceEntry) : Bytes :=
  bytesOf "[\n"
    ++ (es.enum.map (fun x => elementText x.2 (decide (x.1 + 1 = es.length)))).flatten
    ++ bytesOf "]\n"

/-- Split a text at its newlines: `cur` is the line being read.  A last line
without a newline counts when it is not empty. -/
def linesAux : Bytes → Bytes → List Bytes
  | [], cur => if cur = [] then [] else [cur]
  | c :: rest, cur => if c = 0x0A then cur :: linesAux rest [] else linesAux rest (cur ++ [c])

/-- The lines of a text. -/
def linesOf (text : Bytes) : List Bytes := linesAux text []

/-- The five lines of one element. -/
def elementLines (e : DeviceEntry) (last : Bool) : List Bytes :=
  [ bytesOf "  \x7b",
    bytesOf "    \"index\": " ++ decimal e.index ++ bytesOf ",",
    bytesOf "    \"friendly_name\": \"" ++ JsonEscape e.friendly_name ++ bytesOf "\",",
    bytesOf "    \"symbolic_link\": \"" ++ JsonEscape e.symbolic_link ++ bytesOf "\"",
    bytesOf "  \x7d" ++ (if last then [] else bytesOf ",") ]

/-- The lines of the whole text for the entries `es`. -/
def formatLines (es : List DeviceEntry) : List Bytes :=
  [bytesOf "["]
    ++ (es.enum.map (fun x => elementLines x.2 (decide (x.1 + 1 = es.length)))).flatten
    ++ [bytesOf "]"]

/-- Put a newline after every line and join the lines. -/
def unlines (ls : List Bytes) : Bytes := (ls.map (fun l => l ++ [0x0A])).flatten

/-- The calls that build the filter or enumerate devices. -/
def Event.isQueryCall : Event → Bool
  | Event.MFCreateAttributes => true
  | Event.SetGUID => true
  | Event.MFEnumDeviceSources => true
  | Event.GetAllocatedString _ _ => true
  | _ => false

/-- The two teardown calls of the runtimes. -/
def Event.isTeardown : Event → Bool
  | Event.MFShutdown => true
  | Event.CoUninitialize => true
  | _ => false

/-- The part of the trace of a run that comes before the teardown of the
runtimes. -/
def bodyEvents (p : Platform) : List Event :=
  if enumerated p then
    [Event.CoInitializeEx, Event.MFStartup, Event.MFCreateAttributes,
      Event.alloc Resource.attributeBag, Event.SetGUID, Event.MFEnumDeviceSources]
      ++ (if p.devices.isSome = true then [Event.alloc Resource.handleArray] else [])
      ++ handleAllocs p.deviceList 0 ++ loopEvents p.deviceList 0
      ++ arrayReleases p.devices ++ [Event.release Resource.attributeBag]
  else if SUCCEEDED p.mfCreateAttributes = true ∧ SUCCEEDED p.setGUID = true then
    [Event.CoInitializeEx, Event.MFStartup, Event.MFCreateAttributes,
      Event.alloc Resource.attributeBag, Event.SetGUID, Event.MFEnumDeviceSources,
      Event.release Resource.attributeBag]
  else if SUCCEEDED p.mfCreateAttributes = true then
    [Event.CoInitializeEx, Event.MFStartup, Event.MFCreateAttributes,
      Event.alloc Resource.attributeBag, Event.SetGUID, Event.release Resource.attributeBag]
  else
    [Event.CoInitializeEx, Event.MFStartup, Event.MFCreateAttributes]

/-- The filter-failure contract as the specification states it: after a
successful bootstrap, a failure of the bag creation or of the attribute set
makes `main` return 1, with the empty array on standard output, a diagnostic
on standard error and the media framework shut down. -/
def filterFailureIsFatal (p : Platform) : Prop :=
  bootstrapOk p →
  (FAILED p.mfCreateAttributes = true ∨ FAILED p.setGUID = true) →
  (main p).exitCode = 1 ∧ parseJson (main p).process.cout = some (JVal.array []) ∧
    (main p).process.cerr ≠ [] ∧ (main p).process.trace.count Event.MFShutdown = 1

/-- The enumeration-failure contract as the specification states it: after a
successful bootstrap and filter construction, a failure of the enumerator
leaves exactly the three bytes `[`, `]`, newline on standard output and `main`
returns 0. -/
def enumFailureWritesCompactArray (p : Platform) : Prop :=
  bootstrapOk p → SUCCEEDED p.mfCreateAttributes = true → SUCCEEDED p.setGUID = true →
  FAILED p.mfEnumDeviceSources = true →
  (main p).process.cout = [0x5B, 0x5D, 0x0A] ∧ (main p).exitCode = 0

/-- The allocation of a device handle. -/
def Event.isHandleAlloc : Event → Bool
  | Event.alloc (Resource.deviceHandle _) => true
  | _ => false

/-- The release of a device handle. -/
def Event.isHandleRelease : Event → Bool
  | Event.release (Resource.deviceHandle _) => true
  | _ => false

/-- An event of the device loop: an attribute request, or the allocation or
release of an attribute string. -/
def Event.isVisitEvent : Event → Bool
  | Event.GetAllocatedString _ _ => true
  | Event.alloc (Resource.wideString _ _) => true
  | Event.release (Resource.wideString _ _) => true
  | _ => false

/-- How often the resource `r` is handed out in a run that enumerates. -/
def expectedCount (p : Platform) : Resource → Nat
  | Resource.attributeBag => 1
  | Resource.handleArray => if p.devices.isSome = true then 1 else 0
  | Resource.deviceHandle j => if j < p.deviceList.length then 1 else 0
  | Resource.wideString j key => if suppliesAt p.deviceList j key = true then 1 else 0

/-- The text of one element without what follows its closing brace. -/
def elementCore (e : DeviceEntry) : Bytes :=
  bytesOf "  \x7b\n"
    ++ (bytesOf "    \"index\": " ++ decimal e.index ++ bytesOf ",\n")
    ++ (bytesOf "    \"friendly_name\": \"" ++ JsonEscape e.friendly_name ++ bytesOf "\",\n")
    ++ (bytesOf "    \"symbolic_link\": \"" ++ JsonEscape e.symbolic_link ++ bytesOf "\"\n")
    ++ bytesOf "  \x7d"

/-- The text from the closing brace of one element to the closing bracket of
the array, when the entries `es` are still to come. -/
def afterElement : List DeviceEntry → Bytes
  | [] => bytesOf "\n]"
  | e :: es => bytesOf ",\n" ++ elementCore e ++ afterElement es

/-- The JSON document for the entries `es`: the text of the emitter without
its final newline. -/
def documentText : List DeviceEntry → Bytes
  | [] => bytesOf "[\n]"
  | e :: es => bytesOf "[\n" ++ elementCore e ++ afterElement es

/-- The line of the third member of an element and the closing brace, in
front of `tail`. -/
def linkMember (e : DeviceEntry) (tail : Bytes) : Bytes :=
  0x0A :: 0x20 :: 0x20 :: 0x20 :: 0x20 :: 0x22 ::
    (JsonEscape (bytesOf "symbolic_link") ++ 0x22 :: 0x3A :: 0x20 :: 0x22 ::
      (JsonEscape e.symbolic_link ++ 0x22 :: 0x0A :: 0x20 :: 0x20 :: 0x7D :: tail))

/-- The line of the second member of an element and what follows it. -/
def nameMember (e : DeviceEntry) (tail : Bytes) : Bytes :=
  0x0A :: 0x20 :: 0x20 :: 0x20 :: 0x20 :: 0x22 ::
    (JsonEscape (bytesOf "friendly_name") ++ 0x22 :: 0x3A :: 0x20 :: 0x22 ::
      (JsonEscape e.friendly_name ++ 0x22 :: 0x2C :: linkMember e tail))

/-- The line of the first member of an element and what follows it. -/
def indexMember (e : DeviceEntry) (tail : Bytes) : Bytes :=
  0x0A :: 0x20 :: 0x20 :: 0x20 :: 0x20 :: 0x22 ::
    (JsonEscape (bytesOf "index") ++ 0x22 :: 0x3A :: 0x20 ::
      (decimal e.index ++ 0x2C :: nameMember e tail))

/-- The bookkeeping of the mock platform for one event, from the set of the
resources that are live: an allocation has to be of a resource that is not
live, a release has to be of a live resource, and any other event changes
nothing.  `none` stands for a violation. -/
def ledgerStep (live : Option (Finset Resource)) (e : Event) : Option (Finset Resource) :=
  match live, e with
  | none, _ => none
  | some s, Event.alloc r => if r ∈ s then none else some (insert r s)
  | some s, Event.release r => if r ∈ s then some (s.erase r) else none
  | some s, _ => some s

/-- The resources that are live after the trace, starting from none live;
`none` when the trace allocates a live resource or releases one that is not
live. -/
def ledger (trace : List Event) : Option (Finset Resource) :=
  trace.foldl ledgerStep (some ∅)

/-- The handles of an array of `devs`, the first at position `i`. -/
def handleSet : List Device → Nat → Finset Resource
  | [], _ => ∅
  | _ :: devs, i => insert (Resource.deviceHandle i) (handleSet devs (i + 1))

/-! ## Sample platforms -/

/-- A converter for the samples: the UTF-8 encoding of the string followed by
the terminator; the call fails when the buffer is too small. -/
def sampleWideCharToMultiByte : WideCharToMultiByteFn := fun w cbMultiByte =>
  let bytes := utf16ToUtf8 w ++ [0]
  if cbMultiByte = 0 then (bytes.length, [])
  else if cbMultiByte < bytes.length then (0, [])
  else (bytes.length, bytes)

/-- Two devices: the first answers both requests, the second fails the request
for its friendly name. -/
def sampleDevices : List Device :=
  [ { friendlyName := { hr := 0, value := some (bytesOf "Cam \"A\"") }
      symbolicLink := { hr := 0, value := some (bytesOf "\\\\?\\usb#1") } },
    { friendlyName := { hr := -2147024894, value := none }
      symbolicLink := { hr := 0, value := some (bytesOf "usb#2") } } ]

/-- Every platform call succeeds and the enumerator returns `sampleDevices`. -/
def samplePlatform : Platform :=
  { coInitializeEx := 0, mfStartup := 0, mfCreateAttributes := 0, setGUID := 0,
    mfEnumDeviceSources := 0, devices := some sampleDevices,
    wideCharToMultiByte := sampleWideCharToMultiByte }

/-- The component-object initialisation is refused with `E_FAIL`. -/
def comRefused : Platform := { samplePlatform with coInitializeEx := -2147467259 }

/-- The apartment exists in another mode and the media framework fails to start. -/
def startupRefused : Platform :=
  { samplePlatform with coInitializeEx := RPC_E_CHANGED_MODE, mfStartup := -2147467259 }

/-- The attribute bag cannot be created (`E_OUTOFMEMORY`). -/
def bagRefused : Platform := { samplePlatform with mfCreateAttributes := -2147024882 }

/-- The attribute cannot be set. -/
def keyRefused : Platform := { samplePlatform with setGUID := -2147467259 }

/-- The enumerator fails. -/
def enumRefused : Platform :=
  { samplePlatform with mfEnumDeviceSources := -2147467259, devices := none }

/-- A friendly name outside ASCII: `C`, U+00E9, U+20AC, the surrogate pair of
U+1F600, and a high surrogate without its pair. -/
def wideName : WideString := [0x43, 0xE9, 0x20AC, 0xD83D, 0xDE00, 0xD800]

/-- Two devices: the first has the friendly name `wideName`, the second fails
the request for its friendly name with a non-null string left behind. -/
def wideDevices : List Device :=
  [ { friendlyName := { hr := 0, value := some wideName }
      symbolicLink := { hr := 0, value := some (bytesOf "usb#1") } },
    { friendlyName := { hr := -2147024894, value := some wideName }
      symbolicLink := { hr := 0, value := some (bytesOf "usb#2") } } ]

/-- Every platform call succeeds and the enumerator returns `wideDevices`. -/
def widePlatform : Platform := { samplePlatform with devices := some wideDevices }

/-- The converter reports a failure for every string. -/
def converterRefused : Platform :=
  { widePlatform with wideCharToMultiByte := fun _ _ => (0, []) }

/-! ## Proofs: escaping -/

theorem hex_digits (c : Nat) (h : c < 0x20) :
    JsonEscape.hex.getD ((c >>> 4) &&& 0x0F) 0 = hexDigitUpper (c / 16) ∧
    JsonEscape.hex.getD (c &&& 0x0F) 0 = hexDigitUpper (c % 16) := by
  revert c; decide

theorem body_eq_append (os : Bytes) (c : Nat) :
    JsonEscape.body os c = os ++ escapeByteRef c := by
  unfold JsonEscape.body escapeByteRef
  split <;> try rfl
  split_ifs with h
  · obtain ⟨h1, h2⟩ := hex_digits c h
    have hu : bytesOf "\\u00" = [0x5C, 0x75, 0x30, 0x30] := rfl
    simp only [h1, h2, hu, List.append_assoc, List.cons_append, List.nil_append]
  · rfl

theorem foldl_body (s os : Bytes) :
    s.foldl JsonEscape.body os = os ++ JsonEscapeRef s := by
  induction s generalizing os with
  | nil => simp [JsonEscapeRef]
  | cons c s ih =>
    simp only [List.foldl_cons, ih, body_eq_append, JsonEscapeRef, List.map_cons,
      List.flatten_cons, List.append_assoc]

theorem JsonEscape_eq_ref (s : Bytes) : JsonEscape s = JsonEscapeRef s := by
  simp [JsonEscape, foldl_body]

theorem JsonEscape_nil : JsonEscape [] = [] := rfl

theorem JsonEscape_cons (c : Nat) (s : Bytes) :
    JsonEscape (c :: s) = escapeByteRef c ++ JsonEscape s := by
  simp [JsonEscape_eq_ref, JsonEscapeRef]

theorem JsonEscape_append (s t : Bytes) :
    JsonEscape (s ++ t) = JsonEscape s ++ JsonEscape t := by
  simp [JsonEscape_eq_ref, JsonEscapeRef]

/-! ## Proofs: decoding an escaped string -/

theorem hexVal_hexDigitUpper (c : Nat) (h : c < 0x20) :
    hexVal (hexDigitUpper (c / 16)) = some (c / 16) ∧
    hexVal (hexDigitUpper (c % 16)) = some (c % 16) := by
  revert c; decide

theorem scanString_named (e b : Nat) (rest : Bytes) (he : e ≠ 0x75)
    (h : simpleEscape e = some b) :
    scanString (0x5C :: e :: rest) =
      (scanString rest).map (fun r => (StrItem.byte b :: r.1, r.2)) := by
  rw [scanString.eq_def]
  simp [he, h]

theorem scanString_plain (c : Nat) (rest : Bytes) (h1 : c ≠ 0x22) (h2 : c ≠ 0x5C)
    (h3 : ¬ c < 0x20) :
    scanString (c :: rest) =
      (scanString rest).map (fun r => (StrItem.byte c :: r.1, r.2)) := by
  rw [scanString.eq_def]
  simp [h1, h2, h3]

theorem scanString_unit (a b x y : Nat) (rest : Bytes)
    (ha : hexVal a = some x) (hb : hexVal b = some y) :
    scanString (0x5C :: 0x75 :: 0x30 :: 0x30 :: a :: b :: rest) =
      (scanString rest).map (fun r => (StrItem.unit (x * 16 + y) :: r.1, r.2)) := by
  have h0 : hexVal 0x30 = some 0 := by decide
  simp [scanString, ha, hb, h0]

theorem scanString_escape (c : Nat) (rest : Bytes) :
    scanString (escapeByteRef c ++ rest) =
      (scanString rest).map (fun r => (itemOf c :: r.1, r.2)) := by
  unfold escapeByteRef itemOf
  split_ifs with h1 h2 h3 h4 h5 h6 h7 h8 h9 h10 h11 h12 h13 h14 h15 h16
  all_goals first
    | omega
    | (subst_vars; exact scanString_named _ _ rest (by decide) (by decide))
    | exact scanString_plain c rest (by omega) (by omega) (by omega)
    | skip
  obtain ⟨hhi, hlo⟩ := hexVal_hexDigitUpper c h15
  have hu := scanString_unit _ _ _ _ rest hhi hlo
  have hc : c / 16 * 16 + c % 16 = c := by omega
  rw [hc] at hu
  exact hu

theorem renderItems_itemOf (s : Bytes) : renderItems none (s.map itemOf) = s := by
  induction s with
  | nil => rfl
  | cons c s ih =>
    rw [List.map_cons]
    by_cases h : c < 0x20 ∧ c ≠ 0x08 ∧ c ≠ 0x0C ∧ c ≠ 0x0A ∧ c ≠ 0x0D ∧ c ≠ 0x09
    · rw [show itemOf c = StrItem.unit c from if_pos h]
      have h1 : ¬ (0xD800 ≤ c ∧ c < 0xDC00) := by omega
      have h2 : ¬ (0xDC00 ≤ c ∧ c < 0xE000) := by omega
      have h3 : c < 0x80 := by omega
      simp only [renderItems, h1, h2, if_false, utf8Encode, h3, if_true, ih,
        List.cons_append, List.nil_append]
    · rw [show itemOf c = StrItem.byte c from if_neg h]
      simp only [renderItems, ih]

theorem scanString_JsonEscape (s rest : Bytes) :
    scanString (JsonEscape s ++ 0x22 :: rest) = some (s.map itemOf, rest) := by
  induction s with
  | nil =>
    rw [JsonEscape_nil, List.nil_append, scanString.eq_def]
    simp
  | cons c s ih =>
    rw [JsonEscape_cons, List.append_assoc, scanString_escape, ih]
    rfl

/-- Reading back an escaped string that is followed by the closing quote gives
the string and leaves the input after the quote. -/
theorem parseStringTail_JsonEscape (s rest : Bytes) :
    parseStringTail (JsonEscape s ++ 0x22 :: rest) = some (s, rest) := by
  simp [parseStringTail, scanString_JsonEscape, renderItems_itemOf]

theorem escapeByteRef_quote : escapeByteRef 0x22 = [0x5C, 0x22] := rfl

theorem quote_infix (s : Bytes) (h : 0x22 ∈ s) : [0x5C, 0x22] <:+: JsonEscape s := by
  obtain ⟨a, b, rfl⟩ := List.append_of_mem h
  refine ⟨JsonEscape a, JsonEscape b, ?_⟩
  rw [JsonEscape_append, JsonEscape_cons, escapeByteRef_quote]
  simp

/-! ## Proofs: the loops of `main` -/

theorem FAILED_eq_not (hr : Int) : FAILED hr = !SUCCEEDED hr := by
  simp only [FAILED, SUCCEEDED]
  by_cases h : 0 ≤ hr
  · simp [h]
  · simp [h]; omega

theorem attributeText_eq (p : Platform) (r : AttrReply) :
    attributeText p r =
      if SUCCEEDED r.hr = true ∧ r.value ≠ none then WideToUtf8 p.wideCharToMultiByte r.value
      else [] := by
  unfold attributeText
  cases hv : r.value <;> cases hs : SUCCEEDED r.hr <;> simp

theorem deviceLoop_eq (p : Platform) (devs : List Device) (i : Nat)
    (results : List DeviceEntry) (w : Process) :
    deviceLoop p devs i results w =
      (results ++ entriesFrom p devs i,
        { w with trace := w.trace ++ loopEvents devs i }) := by
  induction devs generalizing i results w with
  | nil => simp [deviceLoop, entriesFrom, loopEvents]
  | cons d devs ih =>
    simp only [deviceLoop, ih, entriesFrom, loopEvents, visitEvents, entryOf,
      attributeText_eq, Process.record, Process.allocIf]
    cases d.friendlyName.value <;> cases d.symbolicLink.value <;> simp

theorem allocHandles_eq (devs : List Device) (i : Nat) (w : Process) :
    allocHandles devs i w = { w with trace := w.trace ++ handleAllocs devs i } := by
  induction devs generalizing i w with
  | nil => simp [allocHandles, handleAllocs]
  | cons d devs ih => simp [allocHandles, handleAllocs, ih, Process.record]

theorem releaseLoop_eq (devs : List Device) (i : Nat) (w : Process) :
    releaseLoop devs i w = { w with trace := w.trace ++ handleReleases devs i } := by
  induction devs generalizing i w with
  | nil => simp [releaseLoop, handleReleases]
  | cons d devs ih => simp [releaseLoop, handleReleases, ih, Process.record]

/-! ## Proofs: the paths of `main` -/

theorem comUsable_iff (p : Platform) :
    (SUCCEEDED p.coInitializeEx || p.coInitializeEx == RPC_E_CHANGED_MODE) = true ↔
      comUsable p := by
  simp [comUsable]

theorem main_com_unusable (p : Platform) (h : ¬ comUsable p) :
    main p =
      { exitCode := 1, results := [],
        process :=
          { cout := bytesOf "[]\n"
            cerr := bytesOf "Failed to initialize COM: " ++ HResultToHex p.coInitializeEx
              ++ bytesOf "\n"
            trace := [Event.CoInitializeEx] } } := by
  have h' : (SUCCEEDED p.coInitializeEx || p.coInitializeEx == RPC_E_CHANGED_MODE) = false := by
    rw [← Bool.not_eq_true, comUsable_iff]; exact h
  simp [main, h', Process.record, Process.err, Process.out]

theorem main_startup_failed (p : Platform) (h : comUsable p) (hs : FAILED p.mfStartup = true) :
    main p =
      { exitCode := 1, results := [],
        process :=
          { cout := bytesOf "[]\n"
            cerr := bytesOf "MFStartup failed: " ++ HResultToHex p.mfStartup ++ bytesOf "\n"
            trace := [Event.CoInitializeEx, Event.MFStartup] ++ coTeardown p } } := by
  have h' := (comUsable_iff p).2 h
  unfold coTeardown
  cases hc : SUCCEEDED p.coInitializeEx <;> simp only [hc, Bool.false_or, Bool.true_or] at h' <;>
    simp [main, h', hs, hc, Process.record, Process.err, Process.out]

theorem main_create_failed (p : Platform) (h : bootstrapOk p)
    (hf : FAILED p.mfCreateAttributes = true) :
    main p =
      { exitCode := 0, results := [],
        process :=
          { cout := emit [] []
            cerr := bytesOf "MFCreateAttributes failed: " ++ HResultToHex p.mfCreateAttributes
              ++ bytesOf "\n"
            trace := [Event.CoInitializeEx, Event.MFStartup, Event.MFCreateAttributes,
              Event.MFShutdown] ++ coTeardown p } } := by
  have h' := (comUsable_iff p).2 h.1
  have hs : FAILED p.mfStartup = false := by rw [FAILED_eq_not, h.2]; rfl
  have hc : SUCCEEDED p.mfCreateAttributes = false := by
    rw [FAILED_eq_not] at hf; simpa using hf
  unfold coTeardown
  cases hco : SUCCEEDED p.coInitializeEx <;>
    simp only [hco, Bool.false_or, Bool.true_or] at h' <;>
    simp [main, enumerateBlock, h', hs, hf, hc, hco, Process.record, Process.err, Process.out,
      Process.allocIf]

theorem main_setGUID_failed (p : Platform) (h : bootstrapOk p)
    (hc : SUCCEEDED p.mfCreateAttributes = true) (hf : FAILED p.setGUID = true) :
    main p =
      { exitCode := 0, results := [],
        process :=
          { cout := emit [] []
            cerr := bytesOf "SetGUID(MF_DEVSOURCE_ATTRIBUTE_SOURCE_TYPE) failed: "
              ++ HResultToHex p.setGUID ++ bytesOf "\n"
            trace := [Event.CoInitializeEx, Event.MFStartup, Event.MFCreateAttributes,
              Event.alloc Resource.attributeBag, Event.SetGUID,
              Event.release Resource.attributeBag, Event.MFShutdown] ++ coTeardown p } } := by
  have h' := (comUsable_iff p).2 h.1
  have hs : FAILED p.mfStartup = false := by rw [FAILED_eq_not, h.2]; rfl
  have hcf : FAILED p.mfCreateAttributes = false := by rw [FAILED_eq_not, hc]; rfl
  unfold coTeardown
  cases hco : SUCCEEDED p.coInitializeEx <;>
    simp only [hco, Bool.false_or, Bool.true_or] at h' <;>
    simp [main, enumerateBlock, h', hs, hf, hc, hcf, hco, Process.record, Process.err,
      Process.out, Process.allocIf]

theorem main_enum_failed (p : Platform) (h : bootstrapOk p)
    (hc : SUCCEEDED p.mfCreateAttributes = true) (hg : SUCCEEDED p.setGUID = true)
    (hf : FAILED p.mfEnumDeviceSources = true) :
    main p =
      { exitCode := 0, results := [],
        process :=
          { cout := emit [] []
            cerr := bytesOf "MFEnumDeviceSources failed: "
              ++ HResultToHex p.mfEnumDeviceSources ++ bytesOf "\n"
            trace := [Event.CoInitializeEx, Event.MFStartup, Event.MFCreateAttributes,
              Event.alloc Resource.attributeBag, Event.SetGUID, Event.MFEnumDeviceSources,
              Event.release Resource.attributeBag, Event.MFShutdown] ++ coTeardown p } } := by
  have h' := (comUsable_iff p).2 h.1
  have hs : FAILED p.mfStartup = false := by rw [FAILED_eq_not, h.2]; rfl
  have hcf : FAILED p.mfCreateAttributes = false := by rw [FAILED_eq_not, hc]; rfl
  have hgf : FAILED p.setGUID = false := by rw [FAILED_eq_not, hg]; rfl
  unfold coTeardown
  cases hco : SUCCEEDED p.coInitializeEx <;>
    simp only [hco, Bool.false_or, Bool.true_or] at h' <;>
    simp [main, enumerateBlock, h', hs, hf, hc, hcf, hg, hgf, hco, Process.record, Process.err,
      Process.out, Process.allocIf]

theorem main_enumerated (p : Platform) (h : enumerated p) :
    main p =
      { exitCode := 0, results := entriesFrom p p.deviceList 0,
        process :=
          { cout := emit (entriesFrom p p.deviceList 0) []
            cerr := []
            trace := [Event.CoInitializeEx, Event.MFStartup, Event.MFCreateAttributes,
              Event.alloc Resource.attributeBag, Event.SetGUID, Event.MFEnumDeviceSources]
              ++ (if p.devices.isSome = true then [Event.alloc Resource.handleArray] else [])
              ++ handleAllocs p.deviceList 0 ++ loopEvents p.deviceList 0
              ++ arrayReleases p.devices
              ++ [Event.release Resource.attributeBag, Event.MFShutdown] ++ coTeardown p } } := by
  obtain ⟨hb, hc, hg, he⟩ := h
  have h' := (comUsable_iff p).2 hb.1
  have hs : FAILED p.mfStartup = false := by rw [FAILED_eq_not, hb.2]; rfl
  have hcf : FAILED p.mfCreateAttributes = false := by rw [FAILED_eq_not, hc]; rfl
  have hgf : FAILED p.setGUID = false := by rw [FAILED_eq_not, hg]; rfl
  have hef : FAILED p.mfEnumDeviceSources = false := by rw [FAILED_eq_not, he]; rfl
  unfold coTeardown Platform.deviceList
  cases hco : SUCCEEDED p.coInitializeEx <;>
    simp only [hco, Bool.false_or, Bool.true_or] at h' <;>
    cases hd : p.devices <;>
    simp [main, enumerateBlock, h', hs, hc, hcf, hg, hgf, he, hef, hco, hd, Process.record,
      Process.err, Process.out, Process.allocIf, deviceLoop_eq, allocHandles_eq,
      releaseLoop_eq, arrayReleases, handleAllocs, loopEvents, entriesFrom, handleReleases]

/-! ## Proofs: the emitter -/

theorem emitLoop_eq (size : Nat) (rest : List DeviceEntry) (i : Nat) (cout : Bytes)
    (h : i + rest.length = size) :
    emitLoop size rest i cout =
      cout ++ ((rest.enumFrom i).map
        (fun x => elementText x.2 (decide (x.1 + 1 = size)))).flatten := by
  induction rest generalizing i cout with
  | nil => simp [emitLoop]
  | cons d rest ih =>
    simp only [List.length_cons] at h
    rw [emitLoop, ih (i + 1) _ (by omega)]
    simp only [List.enumFrom_cons, List.map_cons, List.flatten_cons, elementText]
    by_cases hlast : i + 1 = size
    · have hlt : ¬ i + 1 < size := by omega
      simp [hlast, hlt]
    · have hlt : i + 1 < size := by omega
      simp [hlast, hlt]

theorem emit_eq (es : List DeviceEntry) (cout : Bytes) :
    emit es cout = cout ++ formatRef es := by
  simp [emit, formatRef, emitLoop_eq es.length es 0 _ (by omega), List.enum]

/-! ## Proofs: number formatting -/

theorem digitsAux_lt (base : Nat) (hb : 0 < base) (fuel n : Nat) (acc : List Nat)
    (hacc : ∀ d ∈ acc, d < base) : ∀ d ∈ digitsAux base fuel n acc, d < base := by
  induction fuel generalizing n acc with
  | zero => simpa [digitsAux] using hacc
  | succ fuel ih =>
    rw [digitsAux]
    split_ifs with h
    · intro d hd
      rcases List.mem_cons.1 hd with rfl | hd
      · exact h
      · exact hacc d hd
    · apply ih
      intro d hd
      rcases List.mem_cons.1 hd with rfl | hd
      · exact Nat.mod_lt _ hb
      · exact hacc d hd

theorem digitsAux_value (base : Nat) (hb : 2 ≤ base) (fuel n : Nat) (acc : List Nat)
    (hn : n < fuel) :
    (digitsAux base fuel n acc).foldl (fun a d => a * base + d) 0 =
      acc.foldl (fun a d => a * base + d) n := by
  induction fuel generalizing n acc with
  | zero => omega
  | succ fuel ih =>
    rw [digitsAux]
    split_ifs with h
    · simp
    · have hpos : 0 < n := by omega
      have hdiv : n / base < n := Nat.div_lt_self hpos hb
      rw [ih (n / base) _ (by omega)]
      simp only [List.foldl_cons]
      rw [Nat.div_add_mod']

theorem digitsAux_head (base : Nat) (hb : 2 ≤ base) (fuel n : Nat) (acc : List Nat)
    (hn : n < fuel) (hpos : 0 < n) :
    ∃ h t, digitsAux base fuel n acc = h :: t ∧ 0 < h := by
  induction fuel generalizing n acc with
  | zero => omega
  | succ fuel ih =>
    rw [digitsAux]
    split_ifs with hlt
    · exact ⟨n, acc, rfl, hpos⟩
    · have hdiv : n / base < n := Nat.div_lt_self hpos hb
      have hq : 0 < n / base := Nat.div_pos (by omega) (by omega)
      exact ih (n / base) _ (by omega) hq

theorem digitsOf_zero (base : Nat) (hb : 2 ≤ base) : digitsOf base 0 = [0] := by
  have : 0 < base := by omega
  simp [digitsOf, digitsAux, this]

theorem digitsOf_lt (base : Nat) (hb : 2 ≤ base) (n : Nat) : ∀ d ∈ digitsOf base n, d < base :=
  digitsAux_lt base (by omega) _ _ _ (by simp)

theorem digitsOf_value (base : Nat) (hb : 2 ≤ base) (n : Nat) :
    (digitsOf base n).foldl (fun a d => a * base + d) 0 = n := by
  rw [digitsOf, digitsAux_value base hb _ _ _ (by omega)]
  rfl

theorem digitsOf_head (base : Nat) (hb : 2 ≤ base) (n : Nat) (hpos : 0 < n) :
    ∃ h t, digitsOf base n = h :: t ∧ 0 < h :=
  digitsAux_head base hb _ _ _ (by omega) hpos

theorem decimal_no_newline (n : Nat) : 0x0A ∉ decimal n := by
  unfold decimal
  intro h
  obtain ⟨d, -, hd⟩ := List.mem_map.1 h
  omega

/-! ## Proofs: the lines of the output -/

theorem escapeByteRef_no_newline (c : Nat) : 0x0A ∉ escapeByteRef c := by
  by_cases h : c < 0x20
  · revert c; decide
  · unfold escapeByteRef
    split_ifs <;> simp
    omega

theorem JsonEscape_no_newline (s : Bytes) : 0x0A ∉ JsonEscape s := by
  induction s with
  | nil => simp [JsonEscape_nil]
  | cons c s ih =>
    rw [JsonEscape_cons, List.mem_append]
    exact fun h => h.elim (escapeByteRef_no_newline c) ih

theorem linesAux_append (a rest cur : Bytes) (h : 0x0A ∉ a) :
    linesAux (a ++ rest) cur = linesAux rest (cur ++ a) := by
  induction a generalizing cur with
  | nil => simp
  | cons c a ih =>
    have hc : c ≠ 0x0A := fun e => h (by simp [e])
    have ha : 0x0A ∉ a := fun e => h (by simp [e])
    rw [List.cons_append, linesAux, if_neg hc, ih _ ha]
    simp

theorem linesOf_unlines (ls : List Bytes) (h : ∀ l ∈ ls, 0x0A ∉ l) :
    linesOf (unlines ls) = ls := by
  unfold linesOf
  induction ls with
  | nil => simp [unlines, linesAux]
  | cons l ls ih =>
    have hl := h l (by simp)
    have hls : ∀ x ∈ ls, 0x0A ∉ x := fun x hx => h x (by simp [hx])
    have : unlines (l :: ls) = l ++ (0x0A :: unlines ls) := by simp [unlines]
    rw [this, linesAux_append _ _ _ hl]
    simp only [linesAux, if_true, List.nil_append, ih hls]

theorem elementText_eq_unlines (e : DeviceEntry) (last : Bool) :
    elementText e last = unlines (elementLines e last) := by
  have h1 : bytesOf "  \x7b\n" = bytesOf "  \x7b" ++ [0x0A] := rfl
  have h2 : bytesOf ",\n" = bytesOf "," ++ [0x0A] := rfl
  have h3 : bytesOf "\",\n" = bytesOf "\"," ++ [0x0A] := rfl
  have h4 : bytesOf "\"\n" = bytesOf "\"" ++ [0x0A] := rfl
  have h5 : bytesOf "\n" = [0x0A] := rfl
  simp only [elementText, elementLines, unlines, h1, h2, h3, h4, h5, List.map_cons,
    List.map_nil, List.flatten_cons, List.flatten_nil, List.append_assoc, List.append_nil]

theorem unlines_append (a b : List Bytes) : unlines (a ++ b) = unlines a ++ unlines b := by
  simp [unlines]

theorem unlines_flatten (ls : List (List Bytes)) :
    unlines ls.flatten = (ls.map unlines).flatten := by
  induction ls with
  | nil => rfl
  | cons l ls ih => simp [unlines_append, ih]

theorem formatRef_eq_unlines (es : List DeviceEntry) :
    formatRef es = unlines (formatLines es) := by
  have h1 : bytesOf "[\n" = unlines [bytesOf "["] := rfl
  have h2 : bytesOf "]\n" = unlines [bytesOf "]"] := rfl
  simp only [formatRef, formatLines, unlines_append, unlines_flatten, h1, h2, List.map_map]
  congr 2
  congr 1
  exact List.map_congr_left (fun x _ => elementText_eq_unlines _ _)

theorem elementLines_no_newline (e : DeviceEntry) (last : Bool) :
    ∀ l ∈ elementLines e last, 0x0A ∉ l := by
  have hj := JsonEscape_no_newline
  have hd := decimal_no_newline
  have k1 : 0x0A ∉ bytesOf "  \x7b" := by decide
  have k2 : 0x0A ∉ bytesOf "    \"index\": " := by decide
  have k3 : 0x0A ∉ bytesOf "," := by decide
  have k4 : 0x0A ∉ bytesOf "    \"friendly_name\": \"" := by decide
  have k5 : 0x0A ∉ bytesOf "\"," := by decide
  have k6 : 0x0A ∉ bytesOf "    \"symbolic_link\": \"" := by decide
  have k7 : 0x0A ∉ bytesOf "\"" := by decide
  have k8 : 0x0A ∉ bytesOf "  \x7d" := by decide
  intro l hl
  simp only [elementLines, List.mem_cons, List.mem_singleton, List.not_mem_nil, or_false] at hl
  rcases hl with rfl | rfl | rfl | rfl | rfl
  · exact k1
  · simp only [List.mem_append, not_or]; exact ⟨⟨k2, hd _⟩, k3⟩
  · simp only [List.mem_append, not_or]; exact ⟨⟨k4, hj _⟩, k5⟩
  · simp only [List.mem_append, not_or]; exact ⟨⟨k6, hj _⟩, k7⟩
  · cases last
    · simp only [List.mem_append, not_or]; exact ⟨k8, by decide⟩
    · simp only [List.mem_append, not_or]; exact ⟨k8, by simp⟩

theorem formatLines_no_newline (es : List DeviceEntry) :
    ∀ l ∈ formatLines es, 0x0A ∉ l := by
  intro l hl
  simp only [formatLines, List.mem_append, List.mem_singleton, List.mem_flatten,
    List.mem_map] at hl
  rcases hl with (rfl | ⟨ls, ⟨x, -, rfl⟩, hl⟩) | rfl
  · decide
  · exact elementLines_no_newline _ _ l hl
  · decide

theorem linesOf_formatRef (es : List DeviceEntry) : linesOf (formatRef es) = formatLines es := by
  rw [formatRef_eq_unlines, linesOf_unlines _ (formatLines_no_newline es)]

theorem ne_separator_of_third (l : Bytes) (h : l[2]? = some 0x20) : l ≠ bytesOf "  \x7d," := by
  intro e
  rw [e] at h
  revert h
  decide

theorem count_separator_elementLines (e : DeviceEntry) (last : Bool) :
    (elementLines e last).count (bytesOf "  \x7d,") = if last then 0 else 1 := by
  have n1 : bytesOf "  \x7b" ≠ bytesOf "  \x7d," := by decide
  have n2 : bytesOf "    \"index\": " ++ decimal e.index ++ bytesOf "," ≠ bytesOf "  \x7d," :=
    ne_separator_of_third _ rfl
  have n3 : bytesOf "    \"friendly_name\": \"" ++ JsonEscape e.friendly_name ++ bytesOf "\","
      ≠ bytesOf "  \x7d," := ne_separator_of_third _ rfl
  have n4 : bytesOf "    \"symbolic_link\": \"" ++ JsonEscape e.symbolic_link ++ bytesOf "\""
      ≠ bytesOf "  \x7d," := ne_separator_of_third _ rfl
  simp only [List.append_assoc] at n2 n3 n4
  cases last
  · have n5 : bytesOf "  \x7d" ++ bytesOf "," = bytesOf "  \x7d," := rfl
    simp [elementLines, List.count_cons, n1, n2, n3, n4, n5]
  · have n5 : bytesOf "  \x7d" ++ [] ≠ bytesOf "  \x7d," := by decide
    simp only [List.append_nil] at n5
    simp [elementLines, List.count_cons, n1, n2, n3, n4, n5]

theorem count_separator_enumFrom (size : Nat) (rest : List DeviceEntry) (i : Nat)
    (h : i + rest.length = size) :
    (((rest.enumFrom i).map
      (fun x => elementLines x.2 (decide (x.1 + 1 = size)))).flatten).count (bytesOf "  \x7d,")
      = rest.length - 1 := by
  induction rest generalizing i with
  | nil => simp
  | cons d rest ih =>
    simp only [List.length_cons] at h
    simp only [List.enumFrom_cons, List.map_cons, List.flatten_cons, List.count_append,
      count_separator_elementLines, ih (i + 1) (by omega), List.length_cons]
    by_cases hlast : i + 1 = size
    · have : rest.length = 0 := by omega
      simp [hlast, this]
    · have : 0 < rest.length := by omega
      simp [hlast]
      omega

theorem count_separator_formatLines (es : List DeviceEntry) :
    (formatLines es).count (bytesOf "  \x7d,") = es.length - 1 := by
  have h1 : bytesOf "[" ≠ bytesOf "  \x7d," := by decide
  have h2 : bytesOf "]" ≠ bytesOf "  \x7d," := by decide
  simp only [formatLines, List.count_append, List.enum,
    count_separator_enumFrom es.length es 0 (by omega)]
  simp [List.count_cons, h1, h2]

/-! ## Proofs: the commas of the output -/

theorem escapeByteRef_count_comma (c : Nat) :
    (escapeByteRef c).count 0x2C = if c = 0x2C then 1 else 0 := by
  by_cases h : c < 0x20
  · revert c; decide
  · unfold escapeByteRef
    split_ifs <;>
      first
        | omega
        | rfl
        | (subst_vars; rfl)
        | (rw [List.count_singleton]; exact if_neg (fun e => by
            have := beq_iff_eq.1 e
            omega))

theorem JsonEscape_count_comma (s : Bytes) : (JsonEscape s).count 0x2C = s.count 0x2C := by
  induction s with
  | nil => rfl
  | cons c s ih =>
    rw [JsonEscape_cons, List.count_append, escapeByteRef_count_comma, ih, List.count_cons]
    by_cases h : c = 0x2C
    · simp [h]; omega
    · simp [h]

theorem decimal_count_comma (n : Nat) : (decimal n).count 0x2C = 0 := by
  rw [List.count_eq_zero]
  unfold decimal
  intro h
  obtain ⟨d, hd, hc⟩ := List.mem_map.1 h
  have := digitsOf_lt 10 (by omega) n d hd
  omega

/-- The commas inside the strings of an entry. -/
theorem elementText_count_comma (e : DeviceEntry) (last : Bool) :
    (elementText e last).count 0x2C =
      2 + (if last then 0 else 1)
        + (e.friendly_name.count 0x2C + e.symbolic_link.count 0x2C) := by
  have k1 : (bytesOf "  \x7b\n").count 0x2C = 0 := by decide
  have k2 : (bytesOf "    \"index\": ").count 0x2C = 0 := by decide
  have k3 : (bytesOf ",\n").count 0x2C = 1 := by decide
  have k4 : (bytesOf "    \"friendly_name\": \"").count 0x2C = 0 := by decide
  have k5 : (bytesOf "\",\n").count 0x2C = 1 := by decide
  have k6 : (bytesOf "    \"symbolic_link\": \"").count 0x2C = 0 := by decide
  have k7 : (bytesOf "\"\n").count 0x2C = 0 := by decide
  have k8 : (bytesOf "  \x7d").count 0x2C = 0 := by decide
  have k9 : (bytesOf ",").count 0x2C = 1 := by decide
  have k10 : (bytesOf "\n").count 0x2C = 0 := by decide
  simp only [elementText, List.count_append, k1, k2, k3, k4, k5, k6, k7, k8, k10,
    JsonEscape_count_comma, decimal_count_comma]
  cases last
  · simp only [k9, Bool.false_eq_true, if_false]; omega
  · simp only [List.count_nil, if_true]; omega

theorem count_comma_enumFrom (size : Nat) (rest : List DeviceEntry) (i : Nat)
    (h : i + rest.length = size) :
    (((rest.enumFrom i).map
      (fun x => elementText x.2 (decide (x.1 + 1 = size)))).flatten).count 0x2C
      = 2 * rest.length + (rest.length - 1)
        + (rest.map (fun e => e.friendly_name.count 0x2C + e.symbolic_link.count 0x2C)).sum := by
  induction rest generalizing i with
  | nil => simp
  | cons d rest ih =>
    simp only [List.length_cons] at h
    simp only [List.enumFrom_cons, List.map_cons, List.flatten_cons, List.count_append,
      elementText_count_comma, ih (i + 1) (by omega), List.length_cons, List.sum_cons]
    by_cases hlast : i + 1 = size
    · have : rest.length = 0 := by omega
      simp only [hlast, decide_True, if_true, this]
      omega
    · have : 0 < rest.length := by omega
      simp only [hlast, decide_False, Bool.false_eq_true, if_false]
      omega

theorem formatRef_count_comma (es : List DeviceEntry) :
    (formatRef es).count 0x2C = 2 * es.length + (es.length - 1)
      + (es.map (fun e => e.friendly_name.count 0x2C + e.symbolic_link.count 0x2C)).sum := by
  have k1 : (bytesOf "[\n").count 0x2C = 0 := by decide
  have k2 : (bytesOf "]\n").count 0x2C = 0 := by decide
  simp only [formatRef, List.count_append, k1, k2, List.enum,
    count_comma_enumFrom es.length es 0 (by omega)]
  omega

/-! ## Proofs: classes of events -/

theorem visitEvents_not_teardown (i : Nat) (d : Device) :
    (visitEvents i d).all (fun e => !e.isTeardown) = true := by
  unfold visitEvents
  cases d.friendlyName.value <;> cases d.symbolicLink.value <;> rfl

theorem loopEvents_not_teardown (devs : List Device) (i : Nat) :
    (loopEvents devs i).all (fun e => !e.isTeardown) = true := by
  induction devs generalizing i with
  | nil => rfl
  | cons d devs ih => rw [loopEvents, List.all_append, visitEvents_not_teardown, ih]; rfl

theorem handleAllocs_not_teardown (devs : List Device) (i : Nat) :
    (handleAllocs devs i).all (fun e => !e.isTeardown) = true := by
  induction devs generalizing i with
  | nil => rfl
  | cons d devs ih => rw [handleAllocs, List.all_cons, ih]; rfl

theorem handleReleases_not_teardown (devs : List Device) (i : Nat) :
    (handleReleases devs i).all (fun e => !e.isTeardown) = true := by
  induction devs generalizing i with
  | nil => rfl
  | cons d devs ih => rw [handleReleases, List.all_cons, ih]; rfl

theorem arrayReleases_not_teardown (devices : Option (List Device)) :
    (arrayReleases devices).all (fun e => !e.isTeardown) = true := by
  cases devices with
  | none => rfl
  | some devs => rw [arrayReleases, List.all_append, handleReleases_not_teardown]; rfl

theorem succeeded_or_failed (hr : Int) : SUCCEEDED hr = true ∨ FAILED hr = true := by
  rw [FAILED_eq_not]
  cases SUCCEEDED hr <;> simp

theorem not_succeeded_of_failed (hr : Int) (h : FAILED hr = true) : ¬ SUCCEEDED hr = true := by
  rw [FAILED_eq_not] at h
  cases hs : SUCCEEDED hr <;> simp_all

/-- The trace of a run whose bootstrap succeeded: the body, then the shutdown
of the media framework, then the teardown of the component-object runtime
when this run initialised it. -/
theorem main_trace_bootstrapOk (p : Platform) (h : bootstrapOk p) :
    (main p).exitCode = 0 ∧
    (main p).process.trace = bodyEvents p ++ [Event.MFShutdown] ++ coTeardown p ∧
    (main p).process.cout = emit (main p).results [] ∧
    (main p).results = if enumerated p then entriesFrom p p.deviceList 0 else [] := by
  unfold bodyEvents
  rcases succeeded_or_failed p.mfCreateAttributes with hc | hc
  · rcases succeeded_or_failed p.setGUID with hg | hg
    · rcases succeeded_or_failed p.mfEnumDeviceSources with he | he
      · have hen : enumerated p := ⟨h, hc, hg, he⟩
        rw [main_enumerated p hen]
        simp [hen]
      · have hen : ¬ enumerated p := fun x => not_succeeded_of_failed _ he x.2.2.2
        rw [main_enum_failed p h hc hg he]
        simp [hen, hc, hg]
    · have hg' := not_succeeded_of_failed _ hg
      have hen : ¬ enumerated p := fun x => hg' x.2.2.1
      rw [main_setGUID_failed p h hc hg]
      simp [hen, hc, hg']
  · have hc' := not_succeeded_of_failed _ hc
    have hen : ¬ enumerated p := fun x => hc' x.2.1
    rw [main_create_failed p h hc]
    simp [hen, hc']

theorem bodyEvents_mem_startup (p : Platform) : Event.MFStartup ∈ bodyEvents p := by
  unfold bodyEvents
  split_ifs <;> simp

theorem bodyEvents_mem_create (p : Platform) : Event.MFCreateAttributes ∈ bodyEvents p := by
  unfold bodyEvents
  split_ifs <;> simp

theorem bodyEvents_not_teardown (p : Platform) :
    (bodyEvents p).all (fun e => !e.isTeardown) = true := by
  unfold bodyEvents
  split_ifs <;>
    first
      | rfl
      | (simp only [List.all_append, handleAllocs_not_teardown, loopEvents_not_teardown,
          arrayReleases_not_teardown, Bool.and_true, Bool.true_and]; rfl)

theorem count_eq_zero_of_teardown (l : List Event) (e : Event)
    (hl : l.all (fun e => !e.isTeardown) = true) (he : e.isTeardown = true) :
    l.count e = 0 := by
  rw [List.count_eq_zero]
  intro hmem
  have := List.all_eq_true.1 hl e hmem
  simp [he] at this

theorem not_comUsable_of_failed (p : Platform)
    (h : FAILED p.coInitializeEx = true ∧ p.coInitializeEx ≠ RPC_E_CHANGED_MODE) :
    ¬ comUsable p := by
  intro hu
  rcases hu with hs | he
  · exact not_succeeded_of_failed _ h.1 hs
  · exact h.2 he

theorem not_succeeded_changed_mode : SUCCEEDED RPC_E_CHANGED_MODE = false := by decide

theorem coTeardown_count (p : Platform) :
    (coTeardown p).count Event.CoUninitialize =
      if SUCCEEDED p.coInitializeEx = true then 1 else 0 := by
  unfold coTeardown
  split_ifs <;> simp

theorem coTeardown_count_shutdown (p : Platform) :
    (coTeardown p).count Event.MFShutdown = 0 := by
  unfold coTeardown
  split_ifs <;> simp

theorem formatRef_ne (es : List DeviceEntry) : [] ++ formatRef es ≠ bytesOf "[]\n" := by
  intro h
  have h0 : bytesOf "[\n" = [0x5B, 0x0A] := rfl
  have h1 : ([] ++ formatRef es)[1]? = some 0x0A := by
    simp [formatRef, h0]
  rw [h] at h1
  revert h1
  decide

theorem emit_nil : emit [] [] = bytesOf "[\n]\n" := rfl

theorem trace_cases (p : Platform) :
    (¬ comUsable p ∧ (main p).process.trace = [Event.CoInitializeEx]) ∨
    (comUsable p ∧ ¬ bootstrapOk p ∧
      (main p).process.trace = [Event.CoInitializeEx, Event.MFStartup] ++ coTeardown p) ∨
    (bootstrapOk p ∧
      (main p).process.trace = bodyEvents p ++ [Event.MFShutdown] ++ coTeardown p) := by
  by_cases hu : comUsable p
  · rcases succeeded_or_failed p.mfStartup with hs | hs
    · exact Or.inr (Or.inr ⟨⟨hu, hs⟩, (main_trace_bootstrapOk p ⟨hu, hs⟩).2.1⟩)
    · refine Or.inr (Or.inl ⟨hu, fun hb => not_succeeded_of_failed _ hs hb.2, ?_⟩)
      rw [main_startup_failed p hu hs]
  · refine Or.inl ⟨hu, ?_⟩
    rw [main_com_unusable p hu]

/-! ## Proofs: the entries built by the device loop -/

theorem entriesFrom_length (p : Platform) (devs : List Device) (i : Nat) :
    (entriesFrom p devs i).length = devs.length := by
  induction devs generalizing i with
  | nil => rfl
  | cons d devs ih => simp [entriesFrom, ih]

theorem entriesFrom_getElem? (p : Platform) (devs : List Device) (i j : Nat) :
    (entriesFrom p devs i)[j]? = (devs[j]?).map (entryOf p (i + j)) := by
  induction devs generalizing i j with
  | nil => simp [entriesFrom]
  | cons d devs ih =>
    cases j with
    | zero => simp [entriesFrom]
    | succ j =>
      simp only [entriesFrom, List.getElem?_cons_succ, ih]
      have : i + 1 + j = i + (j + 1) := by omega
      rw [this]

theorem entriesFrom_index (p : Platform) (devs : List Device) (i : Nat) :
    (entriesFrom p devs i).map DeviceEntry.index = List.range' i devs.length := by
  induction devs generalizing i with
  | nil => rfl
  | cons d devs ih => simp [entriesFrom, ih, entryOf, List.range'_succ]

/-! ## Proofs: counting allocations and releases -/

theorem handleAllocs_count (devs : List Device) (i j : Nat) :
    (handleAllocs devs i).count (Event.alloc (Resource.deviceHandle j)) =
      if i ≤ j ∧ j < i + devs.length then 1 else 0 := by
  induction devs generalizing i with
  | nil =>
    simp only [handleAllocs, List.count_nil, List.length_nil]
    split_ifs <;> omega
  | cons d devs ih =>
    simp only [handleAllocs, List.count_cons, ih, List.length_cons, beq_iff_eq, Event.alloc.injEq,
      Resource.deviceHandle.injEq]
    split_ifs <;> omega

theorem handleReleases_count (devs : List Device) (i j : Nat) :
    (handleReleases devs i).count (Event.release (Resource.deviceHandle j)) =
      if i ≤ j ∧ j < i + devs.length then 1 else 0 := by
  induction devs generalizing i with
  | nil =>
    simp only [handleReleases, List.count_nil, List.length_nil]
    split_ifs <;> omega
  | cons d devs ih =>
    simp only [handleReleases, List.count_cons, ih, List.length_cons, beq_iff_eq, Event.release.injEq,
      Resource.deviceHandle.injEq]
    split_ifs <;> omega

theorem visitEvents_count (i : Nat) (d : Device) (j : Nat) (key : AttrKey) :
    (visitEvents i d).count (Event.alloc (Resource.wideString j key)) =
      (if j = i ∧ (d.reply key).value.isSome = true then 1 else 0) ∧
    (visitEvents i d).count (Event.release (Resource.wideString j key)) =
      (if j = i ∧ (d.reply key).value.isSome = true then 1 else 0) := by
  unfold visitEvents
  by_cases hji : j = i
  · subst hji
    cases key <;> cases hf : d.friendlyName.value <;> cases hs : d.symbolicLink.value <;>
      simp [Device.reply, hf, hs, List.count_cons]
  · have hij : ¬ i = j := fun e => hji e.symm
    cases key <;> cases hf : d.friendlyName.value <;> cases hs : d.symbolicLink.value <;>
      simp [Device.reply, hf, hs, List.count_cons, hji, hij]

theorem suppliesAt_cons_succ (d : Device) (devs : List Device) (n : Nat) (key : AttrKey) :
    suppliesAt (d :: devs) (n + 1) key = suppliesAt devs n key := by
  simp [suppliesAt]

theorem suppliesAt_cons_zero (d : Device) (devs : List Device) (key : AttrKey) :
    suppliesAt (d :: devs) 0 key = (d.reply key).value.isSome := by
  simp [suppliesAt]

theorem loopEvents_count (devs : List Device) (i j : Nat) (key : AttrKey) :
    (loopEvents devs i).count (Event.alloc (Resource.wideString j key)) =
      (if i ≤ j ∧ suppliesAt devs (j - i) key = true then 1 else 0) ∧
    (loopEvents devs i).count (Event.release (Resource.wideString j key)) =
      (if i ≤ j ∧ suppliesAt devs (j - i) key = true then 1 else 0) := by
  induction devs generalizing i with
  | nil => simp [loopEvents, suppliesAt]
  | cons d devs ih =>
    obtain ⟨va, vr⟩ := visitEvents_count i d j key
    obtain ⟨ia, ir⟩ := ih (i + 1)
    simp only [loopEvents, List.count_append, va, vr, ia, ir]
    by_cases hji : j = i
    · subst hji
      have h1 : ¬ (j + 1 ≤ j ∧ suppliesAt devs (j - (j + 1)) key = true) := by omega
      simp [h1, suppliesAt_cons_zero]
    · by_cases hlt : i + 1 ≤ j
      · obtain ⟨n, rfl⟩ : ∃ n, j = i + 1 + n := ⟨j - (i + 1), by omega⟩
        have e1 : i + 1 + n - (i + 1) = n := by omega
        have e2 : i + 1 + n - i = n + 1 := by omega
        have e3 : i ≤ i + 1 + n := by omega
        simp [hji, hlt, e1, e2, e3, suppliesAt_cons_succ]
      · have h2 : ¬ i ≤ j := by omega
        simp [hji, hlt, h2]

theorem count_eq_zero_of_all (l : List Event) (q : Event → Bool) (hl : l.all q = true)
    (e : Event) (he : q e = false) : l.count e = 0 := by
  rw [List.count_eq_zero]
  intro hmem
  have := List.all_eq_true.1 hl e hmem
  rw [he] at this
  exact Bool.noConfusion this

theorem handleAllocs_all (devs : List Device) (i : Nat) :
    (handleAllocs devs i).all Event.isHandleAlloc = true := by
  induction devs generalizing i with
  | nil => rfl
  | cons d devs ih => rw [handleAllocs, List.all_cons, ih]; rfl

theorem handleReleases_all (devs : List Device) (i : Nat) :
    (handleReleases devs i).all Event.isHandleRelease = true := by
  induction devs generalizing i with
  | nil => rfl
  | cons d devs ih => rw [handleReleases, List.all_cons, ih]; rfl

theorem visitEvents_all (i : Nat) (d : Device) :
    (visitEvents i d).all Event.isVisitEvent = true := by
  unfold visitEvents
  cases d.friendlyName.value <;> cases d.symbolicLink.value <;> rfl

theorem loopEvents_all (devs : List Device) (i : Nat) :
    (loopEvents devs i).all Event.isVisitEvent = true := by
  induction devs generalizing i with
  | nil => rfl
  | cons d devs ih => rw [loopEvents, List.all_append, visitEvents_all, ih]; rfl

theorem arrayReleases_count_alloc (devices : Option (List Device)) (r : Resource) :
    (arrayReleases devices).count (Event.alloc r) = 0 := by
  cases devices with
  | none => rfl
  | some devs =>
    simp [arrayReleases, List.count_append,
      count_eq_zero_of_all _ _ (handleReleases_all devs 0) (Event.alloc r) rfl]

theorem arrayReleases_count_release (p : Platform) (r : Resource) :
    (arrayReleases p.devices).count (Event.release r) =
      match r with
      | Resource.handleArray => if p.devices.isSome = true then 1 else 0
      | Resource.deviceHandle j => if j < p.deviceList.length then 1 else 0
      | _ => 0 := by
  unfold Platform.deviceList
  cases hd : p.devices with
  | none => cases r <;> simp [arrayReleases]
  | some devs =>
    cases r with
    | attributeBag =>
      simp [arrayReleases, List.count_append,
        count_eq_zero_of_all _ _ (handleReleases_all devs 0)
          (Event.release Resource.attributeBag) rfl]
    | handleArray =>
      simp [arrayReleases, List.count_append,
        count_eq_zero_of_all _ _ (handleReleases_all devs 0)
          (Event.release Resource.handleArray) rfl]
    | deviceHandle j =>
      simp [arrayReleases, List.count_append, handleReleases_count]
    | wideString j key =>
      simp [arrayReleases, List.count_append,
        count_eq_zero_of_all _ _ (handleReleases_all devs 0)
          (Event.release (Resource.wideString j key)) rfl]

theorem enumerated_body_count (p : Platform) (h : enumerated p) (r : Resource) :
    (bodyEvents p).count (Event.alloc r) = expectedCount p r ∧
    (bodyEvents p).count (Event.release r) = expectedCount p r := by
  have ha := fun e he => count_eq_zero_of_all _ _ (handleAllocs_all p.deviceList 0) e he
  have hl := fun e he => count_eq_zero_of_all _ _ (loopEvents_all p.deviceList 0) e he
  unfold bodyEvents
  rw [if_pos h]
  simp only [List.count_append, arrayReleases_count_alloc, arrayReleases_count_release]
  cases r with
  | attributeBag =>
    rw [ha (Event.alloc Resource.attributeBag) rfl, hl (Event.alloc Resource.attributeBag) rfl,
      ha (Event.release Resource.attributeBag) rfl, hl (Event.release Resource.attributeBag) rfl]
    constructor <;> (split_ifs <;> simp [expectedCount])
  | handleArray =>
    rw [ha (Event.alloc Resource.handleArray) rfl, hl (Event.alloc Resource.handleArray) rfl,
      ha (Event.release Resource.handleArray) rfl, hl (Event.release Resource.handleArray) rfl]
    constructor <;> (split_ifs <;> simp_all [expectedCount])
  | deviceHandle j =>
    rw [handleAllocs_count, hl (Event.alloc (Resource.deviceHandle j)) rfl,
      ha (Event.release (Resource.deviceHandle j)) rfl,
      hl (Event.release (Resource.deviceHandle j)) rfl]
    simp only [expectedCount]
    constructor <;> (split_ifs <;> first | rfl | omega)
  | wideString j key =>
    rw [ha (Event.alloc (Resource.wideString j key)) rfl,
      ha (Event.release (Resource.wideString j key)) rfl,
      (loopEvents_count p.deviceList 0 j key).1, (loopEvents_count p.deviceList 0 j key).2]
    constructor <;> (split_ifs <;> simp_all [expectedCount])

theorem expectedCount_cases (p : Platform) (h : enumerated p) (r : Resource) :
    (handedOut p r ∧ expectedCount p r = 1) ∨ (¬ handedOut p r ∧ expectedCount p r = 0) := by
  cases r with
  | attributeBag => exact Or.inl ⟨⟨h.1, h.2.1⟩, rfl⟩
  | handleArray =>
    by_cases hd : p.devices.isSome = true
    · exact Or.inl ⟨⟨h, hd⟩, by simp [expectedCount, hd]⟩
    · exact Or.inr ⟨fun x => hd x.2, by simp [expectedCount, hd]⟩
  | deviceHandle j =>
    by_cases hj : j < p.deviceList.length
    · exact Or.inl ⟨⟨h, hj⟩, by simp [expectedCount, hj]⟩
    · exact Or.inr ⟨fun x => hj x.2, by simp [expectedCount, hj]⟩
  | wideString j key =>
    by_cases hs : suppliesAt p.deviceList j key = true
    · exact Or.inl ⟨⟨h, hs⟩, by simp [expectedCount, hs]⟩
    · exact Or.inr ⟨fun x => hs x.2, by simp [expectedCount, hs]⟩

theorem coTeardown_count_resource (p : Platform) (r : Resource) :
    (coTeardown p).count (Event.alloc r) = 0 ∧ (coTeardown p).count (Event.release r) = 0 := by
  unfold coTeardown
  split_ifs <;> simp

theorem handedOut_bootstrapOk (p : Platform) (r : Resource) (h : handedOut p r) :
    bootstrapOk p := by
  cases r with
  | attributeBag => exact h.1
  | handleArray => exact h.1.1
  | deviceHandle j => exact h.1.1
  | wideString j key => exact h.1.1

theorem handedOut_not_enumerated (p : Platform) (r : Resource) (hn : ¬ enumerated p) :
    handedOut p r ↔ r = Resource.attributeBag ∧ bootstrapOk p ∧
      SUCCEEDED p.mfCreateAttributes = true := by
  cases r with
  | attributeBag => simp [handedOut]
  | handleArray => simp [handedOut, hn]
  | deviceHandle j => simp [handedOut, hn]
  | wideString j key => simp [handedOut, hn]

/-- The counts of the allocations and releases of `r` in a run. -/
theorem trace_count (p : Platform) (r : Resource) :
    (handedOut p r ∧
      (main p).process.trace.count (Event.alloc r) = 1 ∧
      (main p).process.trace.count (Event.release r) = 1) ∨
    (¬ handedOut p r ∧
      (main p).process.trace.count (Event.alloc r) = 0 ∧
      (main p).process.trace.count (Event.release r) = 0) := by
  obtain ⟨ca, cr⟩ := coTeardown_count_resource p r
  rcases trace_cases p with ⟨hu, ht⟩ | ⟨hu, hb, ht⟩ | ⟨hb, ht⟩
  · refine Or.inr ⟨fun h => hu (handedOut_bootstrapOk p r h).1, ?_⟩
    simp [ht]
  · refine Or.inr ⟨fun h => hb (handedOut_bootstrapOk p r h), ?_⟩
    simp [ht, List.count_append, ca, cr]
  · by_cases he : enumerated p
    · obtain ⟨ba, br⟩ := enumerated_body_count p he r
      rcases expectedCount_cases p he r with ⟨h1, h2⟩ | ⟨h1, h2⟩
      · exact Or.inl ⟨h1, by simp [ht, List.count_append, ca, cr, ba, br, h2]⟩
      · exact Or.inr ⟨h1, by simp [ht, List.count_append, ca, cr, ba, br, h2]⟩
    · have hiff := handedOut_not_enumerated p r he
      unfold bodyEvents at ht
      rw [if_neg he] at ht
      by_cases hc : SUCCEEDED p.mfCreateAttributes = true
      · by_cases hr : r = Resource.attributeBag
        · refine Or.inl ⟨hiff.2 ⟨hr, hb, hc⟩, ?_⟩
          subst hr
          rw [ht]
          split_ifs <;> simp [List.count_append, ca, cr]
        · refine Or.inr ⟨fun x => hr (hiff.1 x).1, ?_⟩
          rw [ht]
          split_ifs <;> simp [List.count_append, ca, cr, hr]
      · refine Or.inr ⟨fun x => hc (hiff.1 x).2.2, ?_⟩
        rw [ht]
        simp [hc, List.count_append, ca, cr]

/-! ## Proofs: reading the numbers of the output back -/

theorem takeDigits_digits (ds : List Nat) (c : Nat) (rest : Bytes)
    (hds : ∀ d ∈ ds, d < 10) (hc : ¬ (0x30 ≤ c ∧ c ≤ 0x39)) :
    takeDigits (ds.map (fun d => 0x30 + d) ++ c :: rest) = (ds, c :: rest) := by
  induction ds with
  | nil => simp [takeDigits, hc]
  | cons d ds ih =>
    have hd : d < 10 := hds d (by simp)
    have ih' := ih (fun x hx => hds x (by simp [hx]))
    have h1 : 0x30 ≤ 0x30 + d ∧ 0x30 + d ≤ 0x39 := by omega
    rw [List.map_cons, List.cons_append, takeDigits, if_pos h1, ih']
    simp

theorem decimal_digits_ne_nil (n : Nat) : digitsOf 10 n ≠ [] := by
  rcases Nat.eq_zero_or_pos n with rfl | hpos
  · rw [digitsOf_zero 10 (by omega)]; simp
  · obtain ⟨h, t, e, -⟩ := digitsOf_head 10 (by omega) n hpos
    rw [e]; simp

theorem decimal_no_leading_zero (n : Nat) :
    ¬ ((digitsOf 10 n).head? = some 0 ∧ (digitsOf 10 n).length ≠ 1) := by
  rcases Nat.eq_zero_or_pos n with rfl | hpos
  · rw [digitsOf_zero 10 (by omega)]; simp
  · obtain ⟨h, t, e, hh⟩ := digitsOf_head 10 (by omega) n hpos
    rw [e]
    simp
    omega

theorem parseInteger_decimal (n c : Nat) (rest : Bytes) (hc : ¬ (0x30 ≤ c ∧ c ≤ 0x39)) :
    parseInteger (decimal n ++ c :: rest) = some (n, c :: rest) := by
  unfold parseInteger decimal
  rw [takeDigits_digits _ c rest (digitsOf_lt 10 (by omega) n) hc]
  simp only [decimal_digits_ne_nil n, decimal_no_leading_zero n, if_false, fromDigits,
    digitsOf_value 10 (by omega) n]

theorem decimal_head (n : Nat) :
    ∃ c ds, decimal n = c :: ds ∧ 0x30 ≤ c ∧ c ≤ 0x39 := by
  have hne := decimal_digits_ne_nil n
  have hlt := digitsOf_lt 10 (by omega) n
  unfold decimal
  cases hd : digitsOf 10 n with
  | nil => exact absurd hd hne
  | cons d ds =>
    have : d < 10 := hlt d (by simp [hd])
    exact ⟨0x30 + d, ds.map (fun d => 0x30 + d), by simp, by omega, by omega⟩

/-- A decimal number followed by a comma reads back as a plain non-negative
integer, and the comma is left. -/
theorem parseNumber_decimal (n : Nat) (rest : Bytes) :
    parseNumber (decimal n ++ 0x2C :: rest) =
      some ({ negative := false, integer := n, fraction := [], exponent := none },
        0x2C :: rest) := by
  obtain ⟨c, ds, hcd, h1, h2⟩ := decimal_head n
  have hneg : decide ((decimal n ++ 0x2C :: rest).head? = some 0x2D) = false := by
    rw [hcd]; simp; omega
  unfold parseNumber
  simp only [hneg, Bool.false_eq_true, if_false]
  rw [parseInteger_decimal n 0x2C rest (by omega)]
  simp [parseFraction, parseExponent]

/-! ## Proofs: reading the output back as JSON -/

theorem skipWs_space (r : Bytes) : skipWs (0x20 :: r) = skipWs r := by simp [skipWs]

theorem skipWs_newline (r : Bytes) : skipWs (0x0A :: r) = skipWs r := by simp [skipWs]

theorem skipWs_other (c : Nat) (r : Bytes)
    (h : ¬ (c = 0x20 ∨ c = 0x09 ∨ c = 0x0A ∨ c = 0x0D)) : skipWs (c :: r) = c :: r := by
  rw [skipWs, if_neg h]

theorem parseMembers_comma (pv : Bytes → Option (JVal × Bytes)) (n : Nat)
    (input key valueText rest3 rest4 : Bytes) (v : JVal) (acc : List (Bytes × JVal))
    (h1 : skipWs input = 0x22 :: (JsonEscape key ++ 0x22 :: 0x3A :: valueText))
    (h2 : pv valueText = some (v, rest3)) (h3 : skipWs rest3 = 0x2C :: rest4) :
    parseMembers pv (n + 1) input acc = parseMembers pv n rest4 (acc ++ [(key, v)]) := by
  rw [parseMembers, h1]
  simp only [if_true, parseStringTail_JsonEscape]
  rw [skipWs_other 0x3A _ (by omega)]
  simp only [if_true, h2, h3]

theorem parseMembers_close (pv : Bytes → Option (JVal × Bytes)) (n : Nat)
    (input key valueText rest3 rest4 : Bytes) (v : JVal) (acc : List (Bytes × JVal))
    (h1 : skipWs input = 0x22 :: (JsonEscape key ++ 0x22 :: 0x3A :: valueText))
    (h2 : pv valueText = some (v, rest3)) (h3 : skipWs rest3 = 0x7D :: rest4) :
    parseMembers pv (n + 1) input acc = some (acc ++ [(key, v)], rest4) := by
  rw [parseMembers, h1]
  simp only [if_true, parseStringTail_JsonEscape]
  rw [skipWs_other 0x3A _ (by omega)]
  simp only [if_true, h2, h3]
  simp

theorem parseElements_comma (pv : Bytes → Option (JVal × Bytes)) (n : Nat)
    (input rest rest1 : Bytes) (v : JVal) (acc : List JVal)
    (h1 : pv input = some (v, rest)) (h2 : skipWs rest = 0x2C :: rest1) :
    parseElements pv (n + 1) input acc = parseElements pv n rest1 (acc ++ [v]) := by
  rw [parseElements, h1]
  simp only [h2, if_true]

theorem parseElements_close (pv : Bytes → Option (JVal × Bytes)) (n : Nat)
    (input rest rest1 : Bytes) (v : JVal) (acc : List JVal)
    (h1 : pv input = some (v, rest)) (h2 : skipWs rest = 0x5D :: rest1) :
    parseElements pv (n + 1) input acc = some (acc ++ [v], rest1) := by
  rw [parseElements, h1]
  simp only [h2]
  simp

/-- A value position that holds a space and a decimal number followed by a
comma. -/
theorem parseValue_number (fuel n : Nat) (rest : Bytes) :
    parseValue (fuel + 1) (0x20 :: (decimal n ++ 0x2C :: rest)) =
      some (JVal.number { negative := false, integer := n, fraction := [], exponent := none },
        0x2C :: rest) := by
  obtain ⟨c, ds, hcd, h1, h2⟩ := decimal_head n
  have hn := parseNumber_decimal n rest
  rw [parseValue, skipWs_space]
  rw [hcd] at hn ⊢
  rw [List.cons_append] at hn ⊢
  rw [skipWs_other c _ (by omega)]
  simp only [parseValueAt]
  rw [if_neg (by omega), if_neg (by omega), if_neg (by omega), if_neg (by omega),
    if_neg (by omega), if_neg (by omega), hn]
  rfl

/-- A value position that holds a space and a string literal. -/
theorem parseValue_string (fuel : Nat) (s rest : Bytes) :
    parseValue (fuel + 1) (0x20 :: 0x22 :: (JsonEscape s ++ 0x22 :: rest)) =
      some (JVal.string s, rest) := by
  rw [parseValue, skipWs_space, skipWs_other 0x22 _ (by omega)]
  simp only [parseValueAt, if_true, parseStringTail_JsonEscape]
  rfl

theorem elementCore_append (e : DeviceEntry) (tail : Bytes) :
    elementCore e ++ tail = 0x20 :: 0x20 :: 0x7B :: indexMember e tail := by
  have k1 : bytesOf "  \x7b\n" = [0x20, 0x20, 0x7B, 0x0A] := rfl
  have k2 : bytesOf "    \"index\": " =
      0x20 :: 0x20 :: 0x20 :: 0x20 :: 0x22 :: (JsonEscape (bytesOf "index") ++ [0x22, 0x3A, 0x20]) :=
    rfl
  have k3 : bytesOf ",\n" = [0x2C, 0x0A] := rfl
  have k4 : bytesOf "    \"friendly_name\": \"" =
      0x20 :: 0x20 :: 0x20 :: 0x20 :: 0x22 ::
        (JsonEscape (bytesOf "friendly_name") ++ [0x22, 0x3A, 0x20, 0x22]) := rfl
  have k5 : bytesOf "\",\n" = [0x22, 0x2C, 0x0A] := rfl
  have k6 : bytesOf "    \"symbolic_link\": \"" =
      0x20 :: 0x20 :: 0x20 :: 0x20 :: 0x22 ::
        (JsonEscape (bytesOf "symbolic_link") ++ [0x22, 0x3A, 0x20, 0x22]) := rfl
  have k7 : bytesOf "\"\n" = [0x22, 0x0A] := rfl
  have k8 : bytesOf "  \x7d" = [0x20, 0x20, 0x7D] := rfl
  rw [elementCore, k1, k2, k3, k4, k5, k6, k7, k8]
  simp only [indexMember, nameMember, linkMember, List.append_assoc, List.cons_append,
    List.nil_append]

theorem parseValue_of_skipWs (fuel : Nat) (input : Bytes) (c : Nat) (rest : Bytes)
    (h : skipWs input = c :: rest) :
    parseValue (fuel + 1) input = parseValueAt (parseValue fuel) c rest := by
  rw [parseValue, h]

theorem parseValueAt_object (pv : Bytes → Option (JVal × Bytes)) (rest body tail : Bytes)
    (members : List (Bytes × JVal)) (h1 : skipWs rest = 0x22 :: body)
    (h2 : parseMembers pv rest.length rest [] = some (members, tail)) :
    parseValueAt pv 0x7B rest = some (JVal.object members, tail) := by
  simp [parseValueAt, h1, h2]

theorem parseValueAt_array (pv : Bytes → Option (JVal × Bytes)) (rest body tail : Bytes)
    (items : List JVal) (h1 : skipWs rest = 0x7B :: body)
    (h2 : parseElements pv rest.length rest [] = some (items, tail)) :
    parseValueAt pv 0x5B rest = some (JVal.array items, tail) := by
  simp [parseValueAt, h1, h2]

theorem skipWs_indent (r : Bytes) :
    skipWs (0x0A :: 0x20 :: 0x20 :: 0x20 :: 0x20 :: 0x22 :: r) = 0x22 :: r := by
  rw [skipWs_newline, skipWs_space, skipWs_space, skipWs_space, skipWs_space,
    skipWs_other 0x22 _ (by omega)]

/-- The three members of an element read back in order. -/
theorem parseMembers_element (fuel n : Nat) (e : DeviceEntry) (tail : Bytes) :
    parseMembers (parseValue (fuel + 1)) (n + 3) (indexMember e tail) [] =
      some ([ (bytesOf "index",
          JVal.number
            { negative := false, integer := e.index, fraction := [], exponent := none }),
        (bytesOf "friendly_name", JVal.string e.friendly_name),
        (bytesOf "symbolic_link", JVal.string e.symbolic_link) ], tail) := by
  rw [parseMembers_comma _ (n + 2) (indexMember e tail) (bytesOf "index") _ _ _ _ []
      (skipWs_indent _) (parseValue_number fuel _ _) (skipWs_other 0x2C _ (by omega)),
    parseMembers_comma _ (n + 1) (nameMember e tail) (bytesOf "friendly_name") _ _ _ _ _
      (skipWs_indent _) (parseValue_string fuel _ _) (skipWs_other 0x2C _ (by omega)),
    parseMembers_close _ n (linkMember e tail) (bytesOf "symbolic_link") _ _ _ _ _
      (skipWs_indent _) (parseValue_string fuel _ _)
      (by rw [skipWs_newline, skipWs_space, skipWs_space, skipWs_other 0x7D _ (by omega)])]
  rfl

theorem indexMember_length (e : DeviceEntry) (tail : Bytes) :
    ∃ n, (indexMember e tail).length = n + 3 :=
  ⟨(indexMember e tail).length - 3, by simp [indexMember]⟩

/-- The text of one element reads back as the object of its entry, whatever
follows the closing brace. -/
theorem parseValue_element (fuel : Nat) (e : DeviceEntry) (tail : Bytes) :
    parseValue (fuel + 2) (elementCore e ++ tail) = some (entryJson e, tail) := by
  obtain ⟨n, hn⟩ := indexMember_length e tail
  rw [elementCore_append, parseValue_of_skipWs (fuel + 1) _ 0x7B (indexMember e tail)
    (by rw [skipWs_space, skipWs_space, skipWs_other 0x7B _ (by omega)])]
  exact parseValueAt_object _ _ _ _ _ (skipWs_indent _)
    (by rw [hn]; exact parseMembers_element fuel n e tail)

theorem parseValue_newline (fuel : Nat) (input : Bytes) :
    parseValue (fuel + 1) (0x0A :: input) = parseValue (fuel + 1) input := by
  rw [parseValue, parseValue, skipWs_newline]

theorem afterElement_nil (tail : Bytes) : afterElement [] ++ tail = 0x0A :: 0x5D :: tail := rfl

theorem afterElement_cons (e : DeviceEntry) (es : List DeviceEntry) (tail : Bytes) :
    afterElement (e :: es) ++ tail =
      0x2C :: 0x0A :: (elementCore e ++ (afterElement es ++ tail)) := by
  have k : bytesOf ",\n" = [0x2C, 0x0A] := rfl
  simp only [afterElement, k, List.append_assoc, List.cons_append, List.nil_append]

/-- The elements of the array read back in order, up to the closing bracket. -/
theorem parseElements_elements (fuel : Nat) (es : List DeviceEntry) (e : DeviceEntry)
    (n : Nat) (acc : List JVal) (tail : Bytes) (hn : es.length < n) :
    parseElements (parseValue (fuel + 2)) n
        (0x0A :: (elementCore e ++ (afterElement es ++ tail))) acc =
      some (acc ++ (e :: es).map entryJson, tail) := by
  induction es generalizing e n acc with
  | nil =>
    obtain ⟨m, rfl⟩ : ∃ m, n = m + 1 := ⟨n - 1, by simp at hn; omega⟩
    rw [parseElements_close _ m _ (afterElement [] ++ tail) tail (entryJson e) acc
      (by rw [parseValue_newline, parseValue_element])
      (by rw [afterElement_nil, skipWs_newline, skipWs_other 0x5D _ (by omega)])]
    rfl
  | cons e1 es ih =>
    obtain ⟨m, rfl⟩ : ∃ m, n = m + 1 := ⟨n - 1, by simp at hn; omega⟩
    rw [parseElements_comma _ m _ (afterElement (e1 :: es) ++ tail)
      (0x0A :: (elementCore e1 ++ (afterElement es ++ tail))) (entryJson e) acc
      (by rw [parseValue_newline, parseValue_element])
      (by rw [afterElement_cons, skipWs_other 0x2C _ (by omega)])]
    rw [ih e1 m _ (by simp at hn; omega)]
    simp

theorem afterElement_length (es : List DeviceEntry) : es.length ≤ (afterElement es).length := by
  induction es with
  | nil => simp
  | cons e es ih =>
    have k : (bytesOf ",\n").length = 2 := rfl
    simp only [afterElement, List.length_append, List.length_cons, k]
    omega

theorem documentText_cons (e : DeviceEntry) (es : List DeviceEntry) (tail : Bytes) :
    documentText (e :: es) ++ tail =
      0x5B :: 0x0A :: (elementCore e ++ (afterElement es ++ tail)) := by
  have k : bytesOf "[\n" = [0x5B, 0x0A] := rfl
  simp only [documentText, k, List.append_assoc, List.cons_append, List.nil_append]

/-- The document reads back as the array of the objects of its entries,
whatever follows the closing bracket. -/
theorem parseValue_document (fuel : Nat) (es : List DeviceEntry) (tail : Bytes) :
    parseValue (fuel + 3) (documentText es ++ tail) =
      some (JVal.array (es.map entryJson), tail) := by
  cases es with
  | nil =>
    have k : documentText [] ++ tail = 0x5B :: 0x0A :: 0x5D :: tail := rfl
    rw [k, parseValue_of_skipWs _ _ 0x5B (0x0A :: 0x5D :: tail)
      (skipWs_other 0x5B _ (by omega))]
    simp [parseValueAt, skipWs_newline, skipWs_other 0x5D _ (by omega : ¬ _)]
  | cons e es =>
    rw [documentText_cons, parseValue_of_skipWs _ _ 0x5B _ (skipWs_other 0x5B _ (by omega))]
    have hskip : skipWs (0x0A :: (elementCore e ++ (afterElement es ++ tail))) =
        0x7B :: indexMember e (afterElement es ++ tail) := by
      rw [elementCore_append, skipWs_newline, skipWs_space, skipWs_space,
        skipWs_other 0x7B _ (by omega)]
    have hlen : es.length <
        (0x0A :: (elementCore e ++ (afterElement es ++ tail))).length := by
      have := afterElement_length es
      simp only [List.length_cons, List.length_append]
      omega
    rw [parseValueAt_array _ _ _ tail ((e :: es).map entryJson) hskip
      (by rw [parseElements_elements fuel es e _ [] tail hlen]; rfl)]

theorem documentText_length (es : List DeviceEntry) : 2 ≤ (documentText es).length := by
  cases es with
  | nil => decide
  | cons e es =>
    have k : bytesOf "[\n" = [0x5B, 0x0A] := rfl
    simp only [documentText, k, List.length_append, List.length_cons, List.length_nil]
    omega

/-- The document is a JSON text whose value is the array of the objects of its
entries. -/
theorem parseJson_document (es : List DeviceEntry) :
    parseJson (documentText es) = some (JVal.array (es.map entryJson)) := by
  obtain ⟨f, hf⟩ : ∃ f, (documentText es).length + 1 = f + 3 :=
    ⟨(documentText es).length - 2, by have := documentText_length es; omega⟩
  have h := parseValue_document f es []
  rw [List.append_nil] at h
  rw [parseJson, hf, h]
  rfl

theorem emitLoop_document (size : Nat) (rest : List DeviceEntry) (e : DeviceEntry) (i : Nat)
    (cout : Bytes) (h : i + (rest.length + 1) = size) :
    emitLoop size (e :: rest) i cout ++ bytesOf "]" =
      cout ++ (elementCore e ++ afterElement rest) := by
  have k1 : bytesOf "\n" ++ bytesOf "]" = bytesOf "\n]" := rfl
  have k2 : bytesOf "," ++ bytesOf "\n" = bytesOf ",\n" := rfl
  induction rest generalizing e i cout with
  | nil =>
    have hlt : ¬ i + 1 < size := by simp at h; omega
    simp only [emitLoop, hlt, if_false, elementCore, afterElement, List.append_assoc, k1]
  | cons e1 rest ih =>
    have hlt : i + 1 < size := by simp at h; omega
    rw [emitLoop]
    simp only [hlt, if_true]
    rw [ih e1 (i + 1) _ (by simp at h ⊢; omega)]
    simp only [elementCore, afterElement, List.append_assoc, k2]

/-- The emitter writes the document and one newline. -/
theorem emit_document (es : List DeviceEntry) : emit es [] = documentText es ++ [0x0A] := by
  have k : bytesOf "]\n" = bytesOf "]" ++ [0x0A] := rfl
  cases es with
  | nil => rfl
  | cons e es =>
    rw [emit, k, ← List.append_assoc, emitLoop_document _ es e 0 _ (by simp)]
    simp [documentText]

/-! ## Proofs: the output is well-formed UTF-8 -/

theorem utf8Run_zero (lo hi lo1 hi1 : Nat) (s : Bytes) :
    utf8Run 0 lo hi s = utf8Run 0 lo1 hi1 s := by
  cases s with
  | nil => rfl
  | cons b rest => simp [utf8Run, utf8Next]

theorem utf8Run_append (t : Bytes) (ht : validUtf8 t = true) (s : Bytes) :
    ∀ need lo hi, utf8Run need lo hi s = true → utf8Run need lo hi (s ++ t) = true := by
  induction s with
  | nil =>
    intro need lo hi hs
    have h0 : need = 0 := by simpa [utf8Run] using hs
    subst h0
    rw [List.nil_append, utf8Run_zero lo hi 0x80 0xBF]
    exact ht
  | cons b rest ih =>
    intro need lo hi hs
    rw [utf8Run] at hs
    rw [List.cons_append, utf8Run]
    cases hn : utf8Next need lo hi b with
    | none => rw [hn] at hs; exact absurd hs (by simp)
    | some st =>
      rw [hn] at hs
      exact ih _ _ _ hs

theorem validUtf8_append (s t : Bytes) (hs : validUtf8 s = true) (ht : validUtf8 t = true) :
    validUtf8 (s ++ t) = true :=
  utf8Run_append t ht s _ _ _ hs

theorem utf8Next_ascii (need lo hi b : Nat) (hb : b < 0x80) :
    utf8Next need lo hi b = if need = 0 then some (0, 0x80, 0xBF) else none := by
  unfold utf8Next
  split_ifs <;> first | rfl | omega

theorem validUtf8_ascii (a : Bytes) (ha : ∀ c ∈ a, c < 0x80) : validUtf8 a = true := by
  unfold validUtf8
  induction a with
  | nil => rfl
  | cons c a ih =>
    have hc : c < 0x80 := ha c (by simp)
    rw [utf8Run, utf8Next_ascii _ _ _ _ hc]
    exact ih (fun x hx => ha x (by simp [hx]))

theorem escapeByteRef_ascii (c : Nat) (hc : c < 0x80) : ∀ x ∈ escapeByteRef c, x < 0x80 := by
  revert c
  decide

theorem escapeByteRef_high (c : Nat) (hc : 0x80 ≤ c) : escapeByteRef c = [c] := by
  unfold escapeByteRef
  split_ifs <;> first | omega | rfl

theorem escapeByteRef_isByteString (c : Nat) (hc : c < 256) :
    ∀ x ∈ escapeByteRef c, x < 256 := by
  by_cases h : c < 0x80
  · intro x hx
    have := escapeByteRef_ascii c h x hx
    omega
  · rw [escapeByteRef_high c (by omega)]
    intro x hx
    rw [List.mem_singleton] at hx
    omega

/-- The escaping of a byte string is a byte string. -/
theorem JsonEscape_isByteString (s : Bytes) (hs : IsByteString s) :
    IsByteString (JsonEscape s) := by
  induction s with
  | nil => intro c hc; simp [JsonEscape_nil] at hc
  | cons b s ih =>
    intro c hc
    rw [JsonEscape_cons, List.mem_append] at hc
    rcases hc with hc | hc
    · exact escapeByteRef_isByteString b (hs b (by simp)) c hc
    · exact ih (fun x hx => hs x (by simp [hx])) c hc

theorem utf8Run_JsonEscape (s : Bytes) :
    ∀ need lo hi, utf8Run need lo hi s = true → utf8Run need lo hi (JsonEscape s) = true := by
  induction s with
  | nil => intro need lo hi hs; exact hs
  | cons b rest ih =>
    intro need lo hi hs
    rw [JsonEscape_cons]
    rw [utf8Run] at hs
    by_cases hb : b < 0x80
    · rw [utf8Next_ascii _ _ _ _ hb] at hs
      by_cases hneed : need = 0
      · subst hneed
        simp only [if_true] at hs
        have h1 := validUtf8_ascii _ (escapeByteRef_ascii b hb)
        have h2 := utf8Run_append (JsonEscape rest) (ih _ _ _ hs) (escapeByteRef b) 0 0x80 0xBF h1
        rw [utf8Run_zero lo hi 0x80 0xBF]
        exact h2
      · rw [if_neg hneed] at hs
        exact absurd hs (by simp)
    · rw [escapeByteRef_high b (by omega), List.singleton_append, utf8Run]
      cases hn : utf8Next need lo hi b with
      | none => rw [hn] at hs; exact absurd hs (by simp)
      | some st =>
        rw [hn] at hs
        exact ih _ _ _ hs

theorem validUtf8_JsonEscape (s : Bytes) (hs : validUtf8 s = true) :
    validUtf8 (JsonEscape s) = true :=
  utf8Run_JsonEscape s _ _ _ hs

theorem validUtf8_decimal (n : Nat) : validUtf8 (decimal n) = true := by
  apply validUtf8_ascii
  intro c hc
  obtain ⟨d, hd, rfl⟩ := List.mem_map.1 hc
  have := digitsOf_lt 10 (by omega) n d hd
  omega

theorem validUtf8_elementCore (e : DeviceEntry) (hf : validUtf8 e.friendly_name = true)
    (hl : validUtf8 e.symbolic_link = true) : validUtf8 (elementCore e) = true := by
  unfold elementCore
  refine validUtf8_append _ _ (validUtf8_append _ _ (validUtf8_append _ _
    (validUtf8_append _ _ (by decide) ?_) ?_) ?_) (by decide)
  · exact validUtf8_append _ _ (validUtf8_append _ _ (by decide) (validUtf8_decimal _))
      (by decide)
  · exact validUtf8_append _ _ (validUtf8_append _ _ (by decide) (validUtf8_JsonEscape _ hf))
      (by decide)
  · exact validUtf8_append _ _ (validUtf8_append _ _ (by decide) (validUtf8_JsonEscape _ hl))
      (by decide)

theorem validUtf8_afterElement (es : List DeviceEntry)
    (h : ∀ e ∈ es, validUtf8 e.friendly_name = true ∧ validUtf8 e.symbolic_link = true) :
    validUtf8 (afterElement es) = true := by
  induction es with
  | nil => decide
  | cons e es ih =>
    rw [afterElement]
    have he := h e (by simp)
    exact validUtf8_append _ _ (validUtf8_append _ _ (by decide)
      (validUtf8_elementCore e he.1 he.2)) (ih (fun x hx => h x (by simp [hx])))

theorem validUtf8_documentText (es : List DeviceEntry)
    (h : ∀ e ∈ es, validUtf8 e.friendly_name = true ∧ validUtf8 e.symbolic_link = true) :
    validUtf8 (documentText es) = true := by
  cases es with
  | nil => decide
  | cons e es =>
    rw [documentText]
    have he := h e (by simp)
    exact validUtf8_append _ _ (validUtf8_append _ _ (by decide)
      (validUtf8_elementCore e he.1 he.2))
      (validUtf8_afterElement es (fun x hx => h x (by simp [hx])))

theorem entriesFrom_mem (p : Platform) (devs : List Device) (i : Nat) (e : DeviceEntry)
    (he : e ∈ entriesFrom p devs i) : ∃ j, ∃ d ∈ devs, e = entryOf p j d := by
  induction devs generalizing i with
  | nil => simp [entriesFrom] at he
  | cons d devs ih =>
    rw [entriesFrom, List.mem_cons] at he
    rcases he with rfl | he
    · exact ⟨i, d, by simp, rfl⟩
    · obtain ⟨j, d1, hd1, rfl⟩ := ih (i + 1) he
      exact ⟨j, d1, by simp [hd1], rfl⟩

/-- What `main` leaves on standard output and in `results`, on every path:
the text of the emitter for `results`, or the compact empty array when
bootstrap failed. -/
theorem main_cout (p : Platform) :
    ((main p).process.cout = documentText (main p).results ++ [0x0A] ∨
      ((main p).process.cout = bytesOf "[]" ++ [0x0A] ∧ (main p).results = [])) ∧
    ((main p).results = [] ∨ (main p).results = entriesFrom p p.deviceList 0) := by
  by_cases hu : comUsable p
  · rcases succeeded_or_failed p.mfStartup with hs | hs
    · obtain ⟨-, -, hc, hr⟩ := main_trace_bootstrapOk p ⟨hu, hs⟩
      refine ⟨Or.inl (by rw [hc, emit_document]), ?_⟩
      rw [hr]
      split_ifs
      · exact Or.inr rfl
      · exact Or.inl rfl
    · rw [main_startup_failed p hu hs]
      exact ⟨Or.inr ⟨rfl, rfl⟩, Or.inl rfl⟩
  · rw [main_com_unusable p hu]
    exact ⟨Or.inr ⟨rfl, rfl⟩, Or.inl rfl⟩

theorem validUtf8_WideToUtf8_none (f : WideCharToMultiByteFn) :
    validUtf8 (WideToUtf8 f none) = true := rfl

theorem results_valid (p : Platform)
    (hutf8 : ∀ d ∈ p.deviceList, ∀ key, SUCCEEDED (d.reply key).hr = true →
      validUtf8 (WideToUtf8 p.wideCharToMultiByte (d.reply key).value) = true) :
    ∀ e ∈ (main p).results,
      validUtf8 e.friendly_name = true ∧ validUtf8 e.symbolic_link = true := by
  intro e he
  rcases (main_cout p).2 with hr | hr
  · rw [hr] at he; simp at he
  · rw [hr] at he
    obtain ⟨j, d, hd, rfl⟩ := entriesFrom_mem p _ _ e he
    have h1 := hutf8 d hd AttrKey.friendlyName
    have h2 := hutf8 d hd AttrKey.symbolicLink
    simp only [Device.reply] at h1 h2
    simp only [entryOf]
    constructor
    · split_ifs with hc
      · exact h1 hc.1
      · rfl
    · split_ifs with hc
      · exact h2 hc.1
      · rfl

/-! ## Proofs: the ledger of allocations and releases -/

theorem ledgerStep_alloc (s : Finset Resource) (r : Resource) (h : r ∉ s) :
    ledgerStep (some s) (Event.alloc r) = some (insert r s) := by
  simp [ledgerStep, h]

theorem ledgerStep_release (s : Finset Resource) (r : Resource) (h : r ∈ s) :
    ledgerStep (some s) (Event.release r) = some (s.erase r) := by
  simp [ledgerStep, h]

theorem ledger_visitEvents (i : Nat) (d : Device) (s : Finset Resource)
    (h : ∀ key, Resource.wideString i key ∉ s) :
    (visitEvents i d).foldl ledgerStep (some s) = some s := by
  have hf := h AttrKey.friendlyName
  have hl := h AttrKey.symbolicLink
  unfold visitEvents
  cases d.friendlyName.value <;> cases d.symbolicLink.value <;>
    simp [ledgerStep, hf, hl, Finset.erase_insert, Finset.erase_insert_of_ne]

theorem ledger_loopEvents (devs : List Device) (i : Nat) (s : Finset Resource)
    (h : ∀ j key, Resource.wideString j key ∉ s) :
    (loopEvents devs i).foldl ledgerStep (some s) = some s := by
  induction devs generalizing i with
  | nil => rfl
  | cons d devs ih =>
    rw [loopEvents, List.foldl_append, ledger_visitEvents i d s (h i), ih]

theorem mem_handleSet (devs : List Device) (i : Nat) (r : Resource) :
    r ∈ handleSet devs i ↔ ∃ j, r = Resource.deviceHandle j ∧ i ≤ j ∧ j < i + devs.length := by
  induction devs generalizing i with
  | nil =>
    simp only [handleSet, Finset.not_mem_empty, List.length_nil, false_iff]
    rintro ⟨j, -, h1, h2⟩
    omega
  | cons d devs ih =>
    simp only [handleSet, Finset.mem_insert, ih, List.length_cons]
    constructor
    · rintro (rfl | ⟨j, rfl, h1, h2⟩)
      · exact ⟨i, rfl, by omega, by omega⟩
      · exact ⟨j, rfl, by omega, by omega⟩
    · rintro ⟨j, rfl, h1, h2⟩
      by_cases hj : j = i
      · exact Or.inl (by rw [hj])
      · exact Or.inr ⟨j, rfl, by omega, by omega⟩

theorem not_mem_handleSet_succ (devs : List Device) (i : Nat) :
    Resource.deviceHandle i ∉ handleSet devs (i + 1) := by
  rw [mem_handleSet]
  rintro ⟨j, hj, h1, -⟩
  cases hj
  omega

theorem ledger_handleAllocs (devs : List Device) (i : Nat) (s : Finset Resource)
    (h : ∀ j, i ≤ j → Resource.deviceHandle j ∉ s) :
    (handleAllocs devs i).foldl ledgerStep (some s) = some (handleSet devs i ∪ s) := by
  induction devs generalizing i s with
  | nil => simp [handleAllocs, handleSet]
  | cons d devs ih =>
    rw [handleAllocs, List.foldl_cons, ledgerStep_alloc s _ (h i (Nat.le_refl i)),
      ih (i + 1) _ (by
        intro j hj hmem
        rcases Finset.mem_insert.1 hmem with e | hmem
        · cases e; omega
        · exact h j (by omega) hmem)]
    congr 1
    ext r
    simp only [handleSet, Finset.mem_union, Finset.mem_insert]
    tauto

theorem ledger_handleReleases (devs : List Device) (i : Nat) (s : Finset Resource)
    (h : ∀ j, i ≤ j → Resource.deviceHandle j ∉ s) :
    (handleReleases devs i).foldl ledgerStep (some (handleSet devs i ∪ s)) = some s := by
  induction devs generalizing i with
  | nil => simp [handleReleases, handleSet]
  | cons d devs ih =>
    have hmem : Resource.deviceHandle i ∈ handleSet (d :: devs) i ∪ s := by
      simp [handleSet]
    have herase : (handleSet (d :: devs) i ∪ s).erase (Resource.deviceHandle i) =
        handleSet devs (i + 1) ∪ s := by
      ext r
      have h1 := not_mem_handleSet_succ devs i
      have h2 := h i (Nat.le_refl i)
      simp only [handleSet, Finset.mem_erase, Finset.mem_union, Finset.mem_insert]
      constructor
      · rintro ⟨hne, (e | hr) | hr⟩
        · exact absurd e hne
        · exact Or.inl hr
        · exact Or.inr hr
      · rintro (hr | hr)
        · exact ⟨fun e => h1 (e ▸ hr), Or.inl (Or.inr hr)⟩
        · exact ⟨fun e => h2 (e ▸ hr), Or.inr hr⟩
    rw [handleReleases, List.foldl_cons, ledgerStep_release _ _ hmem, herase,
      ih (i + 1) (fun j hj => h j (by omega))]

theorem ledger_prefix (s : Finset Resource) (rest : List Event) :
    ([Event.CoInitializeEx, Event.MFStartup, Event.MFCreateAttributes] ++ rest).foldl
      ledgerStep (some s) = rest.foldl ledgerStep (some s) := rfl

theorem ledger_enumerated_body (devs : List Device) :
    ledger ([Event.CoInitializeEx, Event.MFStartup, Event.MFCreateAttributes]
      ++ ([Event.alloc Resource.attributeBag, Event.SetGUID, Event.MFEnumDeviceSources,
            Event.alloc Resource.handleArray]
        ++ (handleAllocs devs 0 ++ (loopEvents devs 0 ++ (handleReleases devs 0
          ++ [Event.release Resource.handleArray, Event.release Resource.attributeBag])))))
      = some ∅ := by
  have hh : ∀ j, 0 ≤ j → Resource.deviceHandle j ∉
      (insert Resource.handleArray (insert Resource.attributeBag ∅) : Finset Resource) := by
    intro j _; simp
  have hl : ∀ j key, Resource.wideString j key ∉ handleSet devs 0 ∪
      (insert Resource.handleArray (insert Resource.attributeBag ∅) : Finset Resource) := by
    intro j key hmem
    rcases Finset.mem_union.1 hmem with hm | hm
    · obtain ⟨k, hk, -⟩ := (mem_handleSet devs 0 _).1 hm
      cases hk
    · simp at hm
  have e1 : (insert Resource.handleArray (insert Resource.attributeBag ∅) :
      Finset Resource).erase Resource.handleArray = insert Resource.attributeBag ∅ := by
    ext r; simp
  rw [ledger, ledger_prefix, List.foldl_append]
  have h1 : [Event.alloc Resource.attributeBag, Event.SetGUID, Event.MFEnumDeviceSources,
      Event.alloc Resource.handleArray].foldl ledgerStep (some ∅) =
      some (insert Resource.handleArray (insert Resource.attributeBag ∅)) := by
    simp only [List.foldl_cons, List.foldl_nil]
    rw [ledgerStep_alloc _ _ (by simp)]
    show ledgerStep (some _) (Event.alloc Resource.handleArray) = _
    rw [ledgerStep_alloc _ _ (by simp)]
  rw [h1, List.foldl_append, ledger_handleAllocs devs 0 _ hh, List.foldl_append,
    ledger_loopEvents devs 0 _ hl, List.foldl_append, ledger_handleReleases devs 0 _ hh]
  simp only [List.foldl_cons, List.foldl_nil]
  rw [ledgerStep_release _ _ (by simp), e1, ledgerStep_release _ _ (by simp)]
  simp

/-- In a run whose bootstrap succeeded, the body of the trace leaves nothing
live. -/
theorem ledger_bodyEvents (p : Platform) : ledger (bodyEvents p) = some ∅ := by
  have hsmall1 : ledger [Event.CoInitializeEx, Event.MFStartup, Event.MFCreateAttributes,
      Event.alloc Resource.attributeBag, Event.SetGUID, Event.MFEnumDeviceSources,
      Event.release Resource.attributeBag] = some ∅ := by
    simp [ledger, ledgerStep]
  have hsmall2 : ledger [Event.CoInitializeEx, Event.MFStartup, Event.MFCreateAttributes,
      Event.alloc Resource.attributeBag, Event.SetGUID, Event.release Resource.attributeBag]
      = some ∅ := by
    simp [ledger, ledgerStep]
  by_cases he : enumerated p
  · cases hd : p.devices with
    | none =>
      have hb : bodyEvents p = [Event.CoInitializeEx, Event.MFStartup,
          Event.MFCreateAttributes, Event.alloc Resource.attributeBag, Event.SetGUID,
          Event.MFEnumDeviceSources, Event.release Resource.attributeBag] := by
        simp [bodyEvents, he, hd, Platform.deviceList, handleAllocs, loopEvents, arrayReleases]
      rw [hb, hsmall1]
    | some devs =>
      have hb : bodyEvents p = [Event.CoInitializeEx, Event.MFStartup,
          Event.MFCreateAttributes]
          ++ ([Event.alloc Resource.attributeBag, Event.SetGUID, Event.MFEnumDeviceSources,
                Event.alloc Resource.handleArray]
            ++ (handleAllocs devs 0 ++ (loopEvents devs 0 ++ (handleReleases devs 0
              ++ [Event.release Resource.handleArray,
                Event.release Resource.attributeBag])))) := by
        simp [bodyEvents, he, hd, Platform.deviceList, arrayReleases]
      rw [hb, ledger_enumerated_body]
  · unfold bodyEvents
    rw [if_neg he]
    split_ifs
    · exact hsmall1
    · exact hsmall2
    · rfl

theorem ledger_coTeardown (p : Platform) (s : Finset Resource) :
    (coTeardown p).foldl ledgerStep (some s) = some s := by
  unfold coTeardown
  split_ifs <;> rfl

/-- Replaying the record of a run: every allocation is of a resource that is
not live, every release is of a live resource, and nothing is live when `main`
returns. -/
theorem ledger_main (p : Platform) : ledger (main p).process.trace = some ∅ := by
  rcases trace_cases p with ⟨hu, ht⟩ | ⟨hu, hb, ht⟩ | ⟨hb, ht⟩
  · rw [ht]; rfl
  · rw [ht, ledger, List.foldl_append]
    exact ledger_coTeardown p _
  · have hbody := ledger_bodyEvents p
    unfold ledger at hbody
    rw [ht, ledger, List.foldl_append, List.foldl_append, hbody]
    exact ledger_coTeardown p _

/-! ## Proofs: the conversion to UTF-8 -/

/-- A converter that follows its contract on `w` makes `WideToUtf8` return the
UTF-8 encoding of `w`, without the terminator. -/
theorem WideToUtf8_converts (f : WideCharToMultiByteFn) (w : WideString)
    (h : convertsToUtf8 f w) : WideToUtf8 f (some w) = utf16ToUtf8 w := by
  obtain ⟨h1, h2⟩ := h
  have hpos : ¬ ((utf16ToUtf8 w).length : Int) + 1 ≤ 0 := by omega
  have hn : (((utf16ToUtf8 w).length : Int) + 1 - 1).toNat = (utf16ToUtf8 w).length := by
    rw [Int.add_sub_cancel, Int.toNat_ofNat]
  simp only [WideToUtf8, h1, h2, hpos, if_false, hn]
  rw [List.drop_eq_nil_of_le (by simp), List.append_nil, List.take_left']
  rfl

/-- A converter that reports a failure, at the size query or at the
conversion, makes `WideToUtf8` return the empty string. -/
theorem WideToUtf8_failed (f : WideCharToMultiByteFn) (w : WideString)
    (h : (f w 0).1 ≤ 0 ∨ (f w (f w 0).1).1 ≤ 0) : WideToUtf8 f (some w) = [] := by
  simp only [WideToUtf8]
  split_ifs with h1 h2
  · rfl
  · rfl
  · rcases h with h | h
    · exact absurd h h1
    · exact absurd h h2

/-- The text of a field when the converter follows its contract on the string
of a successful request. -/
theorem field_converts (f : WideCharToMultiByteFn) (r : AttrReply)
    (h : ∀ w, SUCCEEDED r.hr = true → r.value = some w → convertsToUtf8 f w) :
    (if SUCCEEDED r.hr = true ∧ r.value ≠ none then WideToUtf8 f r.value else [])
      = utf8Field r := by
  unfold utf8Field
  cases hv : r.value with
  | none => simp
  | some w =>
    cases hs : SUCCEEDED r.hr with
    | false => simp
    | true =>
      simp only [ne_eq, not_false_eq_true, and_self, if_true, reduceCtorEq]
      exact WideToUtf8_converts f w (h w hs hv)

/-- The text of a field when the converter reports a failure on the string. -/
theorem field_failed (f : WideCharToMultiByteFn) (r : AttrReply)
    (h : ∀ w, r.value = some w → (f w 0).1 ≤ 0 ∨ (f w (f w 0).1).1 ≤ 0) :
    (if SUCCEEDED r.hr = true ∧ r.value ≠ none then WideToUtf8 f r.value else []) = [] := by
  cases hv : r.value with
  | none => simp
  | some w =>
    rw [WideToUtf8_failed f w (h w hv)]
    simp

/-! ## The claims -/

/-- C1. Escape law (round trip): for every byte string `s`, decoding
`JsonEscape s` as the body of a JSON string literal yields exactly `s`, and
when `s` contains the double quote, `JsonEscape s` contains the two bytes
backslash, quote next to each other. -/
theorem C1_escape_round_trip (s : Bytes) :
    decodeStringBody (JsonEscape s) = some s ∧
    (0x22 ∈ s → [0x5C, 0x22] <:+: JsonEscape s) := by
  refine ⟨?_, quote_infix s⟩
  simp [decodeStringBody, parseStringTail_JsonEscape]

/-- C1, at a string that holds a quote, a backslash, a control byte and a
byte above 0x7F. -/
theorem C1_escape_round_trip_witness :
    decodeStringBody (JsonEscape [0x61, 0x22, 0x5C, 0x01, 0x0A, 0xC3, 0xA9]) =
      some [0x61, 0x22, 0x5C, 0x01, 0x0A, 0xC3, 0xA9] ∧
    [0x5C, 0x22] <:+: JsonEscape [0x61, 0x22, 0x5C, 0x01, 0x0A, 0xC3, 0xA9] :=
  ⟨(C1_escape_round_trip _).1, (C1_escape_round_trip _).2 (by decide)⟩

/-- C2. `JsonEscape` is the concatenation, over the bytes of the input in
order, of the per-byte escape `escapeByteRef`. -/
theorem C2_JsonEscape_per_byte (s : Bytes) :
    JsonEscape s = (s.map escapeByteRef).flatten :=
  JsonEscape_eq_ref s

/-- C3. Emitter format: the text that the emitter writes for the entries `es`
is the opening line, then for each entry in order its five lines, the last of
them followed by a comma exactly when the entry is not the last one, and the
closing line.  The empty list is written as the two lines `[` and `]`.  The
separator line (closing brace and comma) occurs `es.length - 1` times among
the lines of the text, and the commas of the text are the two member
separators of each element, the commas inside the strings, and these
`es.length - 1` element separators. -/
theorem C3_emitter_format (es : List DeviceEntry) :
    emit es [] =
      bytesOf "[\n"
        ++ (es.enum.map (fun x =>
            bytesOf "  \x7b\n"
            ++ (bytesOf "    \"index\": " ++ decimal x.2.index ++ bytesOf ",\n")
            ++ (bytesOf "    \"friendly_name\": \"" ++ JsonEscape x.2.friendly_name
                  ++ bytesOf "\",\n")
            ++ (bytesOf "    \"symbolic_link\": \"" ++ JsonEscape x.2.symbolic_link
                  ++ bytesOf "\"\n")
            ++ (bytesOf "  \x7d" ++ (if x.1 + 1 = es.length then [] else bytesOf ",")
                  ++ bytesOf "\n"))).flatten
        ++ bytesOf "]\n" ∧
    emit [] [] = bytesOf "[\n]\n" ∧
    (linesOf (emit es [])).count (bytesOf "  \x7d,") = es.length - 1 ∧
    (emit es []).count 0x2C =
      2 * es.length
        + (es.map (fun e => e.friendly_name.count 0x2C + e.symbolic_link.count 0x2C)).sum
        + (es.length - 1) := by
  refine ⟨?_, rfl, ?_, ?_⟩
  · rw [emit_eq, List.nil_append, formatRef]
    congr 2
    congr 1
    refine List.map_congr_left (fun x _ => ?_)
    simp [elementText]
  · rw [emit_eq, List.nil_append, linesOf_formatRef, count_separator_formatLines]
  · rw [emit_eq, List.nil_append, formatRef_count_comma]
    omega

/-- C4. Well-formed output and schema: on every path of `main`, when the
strings obtained from the successful attribute requests are valid UTF-8, standard
output is one JSON document followed by a newline; the document is valid
UTF-8 and reads as an array whose elements, in order, are the objects of the
entries of `results`: exactly the keys `index`, `friendly_name` and
`symbolic_link`, the first a non-negative integer written without sign,
fraction or exponent, the other two strings that decode to the fields of the
entry. -/
theorem C4_well_formed_output (p : Platform)
    (hutf8 : ∀ d ∈ p.deviceList, ∀ key, SUCCEEDED (d.reply key).hr = true →
      validUtf8 (WideToUtf8 p.wideCharToMultiByte (d.reply key).value) = true) :
    ∃ doc, (main p).process.cout = doc ++ [0x0A] ∧
      validUtf8 doc = true ∧
      parseJson doc = some (JVal.array ((main p).results.map (fun e =>
        JVal.object
          [ (bytesOf "index",
              JVal.number
                { negative := false, integer := e.index, fraction := [], exponent := none }),
            (bytesOf "friendly_name", JVal.string e.friendly_name),
            (bytesOf "symbolic_link", JVal.string e.symbolic_link) ]))) := by
  rcases (main_cout p).1 with hc | ⟨hc, hr⟩
  · exact ⟨documentText (main p).results, hc,
      validUtf8_documentText _ (results_valid p hutf8), parseJson_document _⟩
  · refine ⟨bytesOf "[]", hc, by decide, ?_⟩
    rw [hr]
    rfl

/-- C4, at the sample platform: two devices, the strings of which hold a
quote and backslashes. -/
theorem C4_well_formed_output_witness :
    ∃ doc, (main samplePlatform).process.cout = doc ++ [0x0A] ∧
      validUtf8 doc = true ∧
      parseJson doc = some (JVal.array ((main samplePlatform).results.map (fun e =>
        JVal.object
          [ (bytesOf "index",
              JVal.number
                { negative := false, integer := e.index, fraction := [], exponent := none }),
            (bytesOf "friendly_name", JVal.string e.friendly_name),
            (bytesOf "symbolic_link", JVal.string e.symbolic_link) ]))) :=
  C4_well_formed_output samplePlatform (by
    intro d hd key
    have hd' : d ∈ sampleDevices := hd
    simp only [sampleDevices, List.mem_cons, List.mem_singleton, List.not_mem_nil,
      or_false] at hd'
    rcases hd' with rfl | rfl <;> cases key <;> intro _ <;> decide)

/-- C5. Ordering preservation and index density: when bootstrap, filter
construction and the enumerator succeed and the enumerator returns the devices
`d_0 .. d_(N-1)`, the list of results has `N` entries, the indices are
`0, 1, .., N-1` in this order, and the entry at position `i` holds, for each of
the two attributes of `d_i`, the conversion of the string when the request
succeeded with a non-null string and the empty string otherwise; it depends on
no other device.  The conversion is pinned: when the platform converter follows
its contract on the strings of the successful requests of `d_i`, the fields of
the entry are the UTF-8 encodings of these strings (surrogate pairs joined, no
terminator); when the converter reports a failure on the strings of `d_i`, the
fields are empty. -/
theorem C5_ordering_and_index_density (p : Platform) (h : enumerated p) :
    (main p).results.length = p.deviceList.length ∧
    (main p).results.map DeviceEntry.index = List.range p.deviceList.length ∧
    (∀ i d, p.deviceList[i]? = some d →
      (main p).results[i]? = some
        ({ index := i
           friendly_name :=
             if SUCCEEDED d.friendlyName.hr = true ∧ d.friendlyName.value ≠ none
             then WideToUtf8 p.wideCharToMultiByte d.friendlyName.value else []
           symbolic_link :=
             if SUCCEEDED d.symbolicLink.hr = true ∧ d.symbolicLink.value ≠ none
             then WideToUtf8 p.wideCharToMultiByte d.symbolicLink.value else [] } :
          DeviceEntry)) ∧
    (∀ i d, p.deviceList[i]? = some d →
      (∀ key w, SUCCEEDED (d.reply key).hr = true → (d.reply key).value = some w →
        convertsToUtf8 p.wideCharToMultiByte w) →
      (main p).results[i]? = some
        ({ index := i
           friendly_name := utf8Field d.friendlyName
           symbolic_link := utf8Field d.symbolicLink } : DeviceEntry)) ∧
    (∀ i d, p.deviceList[i]? = some d →
      (∀ key w, (d.reply key).value = some w →
        (p.wideCharToMultiByte w 0).1 ≤ 0 ∨
        (p.wideCharToMultiByte w (p.wideCharToMultiByte w 0).1).1 ≤ 0) →
      (main p).results[i]? = some
        ({ index := i, friendly_name := [], symbolic_link := [] } : DeviceEntry)) := by
  rw [main_enumerated p h]
  refine ⟨entriesFrom_length _ _ _, ?_, ?_, ?_, ?_⟩
  · simp only [entriesFrom_index, List.range_eq_range']
  · intro i d hd
    simp only [entriesFrom_getElem?, hd, Option.map_some', Nat.zero_add]
    rfl
  · intro i d hd hc
    simp only [entriesFrom_getElem?, hd, Option.map_some', Nat.zero_add, entryOf,
      field_converts p.wideCharToMultiByte d.friendlyName (hc AttrKey.friendlyName),
      field_converts p.wideCharToMultiByte d.symbolicLink (hc AttrKey.symbolicLink)]
  · intro i d hd hf
    simp only [entriesFrom_getElem?, hd, Option.map_some', Nat.zero_add, entryOf,
      field_failed p.wideCharToMultiByte d.friendlyName (hf AttrKey.friendlyName),
      field_failed p.wideCharToMultiByte d.symbolicLink (hf AttrKey.symbolicLink)]

/-- C5, at the sample platforms: two devices, the first with a friendly name
outside ASCII, the second without a friendly name; the same devices with a
converter that fails; and a device whose request leaves the pointer null. -/
theorem C5_ordering_and_index_density_witness :
    enumerated widePlatform ∧
    (main widePlatform).results.length = 2 ∧
    (main widePlatform).results.map DeviceEntry.index = [0, 1] ∧
    (main widePlatform).results[0]? =
      some { index := 0
             friendly_name := [0x43, 0xC3, 0xA9, 0xE2, 0x82, 0xAC, 0xF0, 0x9F, 0x98, 0x80,
                               0xEF, 0xBF, 0xBD]
             symbolic_link := bytesOf "usb#1" } ∧
    (main widePlatform).results[1]? =
      some { index := 1, friendly_name := [], symbolic_link := bytesOf "usb#2" } ∧
    (main converterRefused).results[0]? =
      some { index := 0, friendly_name := [], symbolic_link := [] } ∧
    (main samplePlatform).results[1]? =
      some { index := 1, friendly_name := [], symbolic_link := bytesOf "usb#2" } :=
  ⟨by decide,
    (C5_ordering_and_index_density widePlatform (by decide)).1,
    (C5_ordering_and_index_density widePlatform (by decide)).2.1,
    (C5_ordering_and_index_density widePlatform (by decide)).2.2.2.1 0
      { friendlyName := { hr := 0, value := some wideName }
        symbolicLink := { hr := 0, value := some (bytesOf "usb#1") } } rfl
      (by intro key w; cases key <;> intro _ hw <;> cases hw <;> decide),
    (C5_ordering_and_index_density widePlatform (by decide)).2.2.2.1 1
      { friendlyName := { hr := -2147024894, value := some wideName }
        symbolicLink := { hr := 0, value := some (bytesOf "usb#2") } } rfl
      (by intro key w; cases key <;> intro _ hw <;> cases hw <;> decide),
    (C5_ordering_and_index_density converterRefused (by decide)).2.2.2.2 0
      { friendlyName := { hr := 0, value := some wideName }
        symbolicLink := { hr := 0, value := some (bytesOf "usb#1") } } rfl
      (fun _ _ _ => Or.inl (Int.le_refl 0)),
    (C5_ordering_and_index_density samplePlatform (by decide)).2.2.1 1
      { friendlyName := { hr := -2147024894, value := none }
        symbolicLink := { hr := 0, value := some (bytesOf "usb#2") } } rfl⟩

/-- C6. Bootstrap failure: when the component-object initialisation fails with
a code other than `RPC_E_CHANGED_MODE`, or is usable while the media-framework
startup fails, `main` writes exactly `[]` and a newline to standard output,
writes the diagnostic of the failing step to standard error, returns 1 and
makes no filter-construction or enumeration call.  Conversely a usable
component-object result goes on to the media-framework startup, and when that
succeeds too the run builds the filter and returns 0. -/
theorem C6_bootstrap_failure (p : Platform) :
    ((FAILED p.coInitializeEx = true ∧ p.coInitializeEx ≠ RPC_E_CHANGED_MODE) ∨
      (comUsable p ∧ FAILED p.mfStartup = true) →
        (main p).process.cout = bytesOf "[]\n" ∧
        (main p).process.cerr =
          (if comUsable p then bytesOf "MFStartup failed: " ++ HResultToHex p.mfStartup
            else bytesOf "Failed to initialize COM: " ++ HResultToHex p.coInitializeEx)
          ++ bytesOf "\n" ∧
        (main p).process.cerr ≠ [] ∧
        (main p).exitCode = 1 ∧
        ∀ e ∈ (main p).process.trace, e.isQueryCall = false) ∧
    (comUsable p →
        Event.MFStartup ∈ (main p).process.trace ∧
        (SUCCEEDED p.mfStartup = true →
          (main p).exitCode = 0 ∧ Event.MFCreateAttributes ∈ (main p).process.trace ∧
          (main p).process.cout ≠ bytesOf "[]\n")) := by
  constructor
  · rintro (h | ⟨hu, hs⟩)
    · have hn := not_comUsable_of_failed p h
      rw [main_com_unusable p hn]
      simp [hn, bytesOf, Event.isQueryCall]
    · rw [main_startup_failed p hu hs]
      refine ⟨rfl, by simp [hu], by simp [bytesOf], rfl, ?_⟩
      intro e he
      unfold coTeardown at he
      split_ifs at he <;> simp at he <;> rcases he with rfl | rfl | rfl <;> rfl
  · intro hu
    rcases succeeded_or_failed p.mfStartup with hs | hs
    · have hb : bootstrapOk p := ⟨hu, hs⟩
      obtain ⟨hx, ht, hc, -⟩ := main_trace_bootstrapOk p hb
      refine ⟨by simp [ht, bodyEvents_mem_startup], fun _ => ⟨hx, ?_, ?_⟩⟩
      · simp [ht, bodyEvents_mem_create]
      · rw [hc, emit_eq]
        exact formatRef_ne _
    · rw [main_startup_failed p hu hs]
      exact ⟨by simp, fun h => absurd h (not_succeeded_of_failed _ hs)⟩

/-- C6, at the sample platforms: a refused component-object initialisation, a
refused media-framework startup, and a run where both succeed. -/
theorem C6_bootstrap_failure_witness :
    ((main comRefused).process.cout = bytesOf "[]\n" ∧ (main comRefused).exitCode = 1) ∧
    ((main startupRefused).process.cout = bytesOf "[]\n" ∧
      (main startupRefused).exitCode = 1) ∧
    (main samplePlatform).exitCode = 0 := by
  have h1 := (C6_bootstrap_failure comRefused).1 (Or.inl (by decide))
  have h2 := (C6_bootstrap_failure startupRefused).1 (Or.inr (by decide))
  have h3 := ((C6_bootstrap_failure samplePlatform).2 (by decide)).2 (by decide)
  exact ⟨⟨h1.1, h1.2.2.2.1⟩, ⟨h2.1, h2.2.2.2.1⟩, h3.1⟩

/-- C7, as stated, fails: with a successful bootstrap and a refused attribute
bag, `main` returns 0 and writes the two lines `[` and `]`. -/
theorem C7_counterexample :
    ¬ filterFailureIsFatal bagRefused ∧
    (main bagRefused).exitCode = 0 ∧
    (main bagRefused).process.cout = [0x5B, 0x0A, 0x5D, 0x0A] := by
  have hm := main_create_failed bagRefused (by decide) (by decide)
  refine ⟨fun h => ?_, by rw [hm], by rw [hm]; rfl⟩
  have h1 := (h (by decide) (Or.inl (by decide))).1
  rw [hm] at h1
  exact absurd h1 (by decide)

/-- C7, amended. After a successful bootstrap, a failure of `MFCreateAttributes`
or of `SetGUID` is not fatal: `main` writes the diagnostic of the failing step
to standard error, writes the empty array as the two lines `[` and `]` to
standard output, makes no enumeration call, releases the attribute bag when it
was created, shuts the media framework down once, tears the component-object
runtime down once when this run initialised it, and returns 0. -/
theorem C7_filter_failure_amended (p : Platform) (hb : bootstrapOk p)
    (hf : FAILED p.mfCreateAttributes = true ∨ FAILED p.setGUID = true) :
    (main p).exitCode = 0 ∧
    (main p).process.cout = bytesOf "[\n]\n" ∧
    (main p).process.cerr =
      (if FAILED p.mfCreateAttributes = true
        then bytesOf "MFCreateAttributes failed: " ++ HResultToHex p.mfCreateAttributes
        else bytesOf "SetGUID(MF_DEVSOURCE_ATTRIBUTE_SOURCE_TYPE) failed: "
          ++ HResultToHex p.setGUID) ++ bytesOf "\n" ∧
    (main p).process.cerr ≠ [] ∧
    Event.MFEnumDeviceSources ∉ (main p).process.trace ∧
    (main p).process.trace.count (Event.release Resource.attributeBag) =
      (main p).process.trace.count (Event.alloc Resource.attributeBag) ∧
    (main p).process.trace.count Event.MFShutdown = 1 ∧
    (main p).process.trace.count Event.CoUninitialize =
      (if SUCCEEDED p.coInitializeEx = true then 1 else 0) := by
  rcases succeeded_or_failed p.mfCreateAttributes with hc | hc
  · have hcf : ¬ FAILED p.mfCreateAttributes = true := by
      rw [FAILED_eq_not, hc]; simp
    have hg : FAILED p.setGUID = true := hf.resolve_left hcf
    rw [main_setGUID_failed p hb hc hg]
    refine ⟨rfl, rfl, by simp [hcf], by simp [bytesOf], ?_, ?_, ?_, ?_⟩ <;>
      (unfold coTeardown; split_ifs <;> simp_all)
  · rw [main_create_failed p hb hc]
    refine ⟨rfl, rfl, by simp [hc], by simp [bytesOf], ?_, ?_, ?_, ?_⟩ <;>
      (unfold coTeardown; split_ifs <;> simp_all)

/-- C7 amended, at the sample platforms for both failing steps. -/
theorem C7_filter_failure_amended_witness :
    ((main bagRefused).exitCode = 0 ∧ (main bagRefused).process.cout = bytesOf "[\n]\n") ∧
    ((main keyRefused).exitCode = 0 ∧ (main keyRefused).process.cout = bytesOf "[\n]\n") :=
  ⟨⟨(C7_filter_failure_amended bagRefused (by decide) (Or.inl (by decide))).1,
      (C7_filter_failure_amended bagRefused (by decide) (Or.inl (by decide))).2.1⟩,
    ⟨(C7_filter_failure_amended keyRefused (by decide) (Or.inr (by decide))).1,
      (C7_filter_failure_amended keyRefused (by decide) (Or.inr (by decide))).2.1⟩⟩

/-- C8, as stated, fails: when the enumerator fails, standard output holds the
four bytes `[`, newline, `]`, newline and not the three bytes `[`, `]`,
newline. -/
theorem C8_counterexample :
    ¬ enumFailureWritesCompactArray enumRefused ∧
    (main enumRefused).process.cout = [0x5B, 0x0A, 0x5D, 0x0A] := by
  have hm := main_enum_failed enumRefused (by decide) (by decide) (by decide) (by decide)
  refine ⟨fun h => ?_, by rw [hm]; rfl⟩
  have h1 := (h (by decide) (by decide) (by decide) (by decide)).1
  rw [hm] at h1
  exact absurd h1 (by decide)

/-- C8, amended. After a successful bootstrap and filter construction, a
failure of `MFEnumDeviceSources` is not fatal: standard output is exactly the
four bytes `[`, newline, `]`, newline, the diagnostic is written to standard
error, `main` returns 0, the attribute bag is released once, the media
framework is shut down once and the component-object runtime is torn down
once when this run initialised it. -/
theorem C8_enum_failure_amended (p : Platform) (hb : bootstrapOk p)
    (hc : SUCCEEDED p.mfCreateAttributes = true) (hg : SUCCEEDED p.setGUID = true)
    (hf : FAILED p.mfEnumDeviceSources = true) :
    (main p).process.cout = [0x5B, 0x0A, 0x5D, 0x0A] ∧
    (main p).process.cerr =
      bytesOf "MFEnumDeviceSources failed: " ++ HResultToHex p.mfEnumDeviceSources
        ++ bytesOf "\n" ∧
    (main p).process.cerr ≠ [] ∧
    (main p).exitCode = 0 ∧
    (main p).process.trace.count (Event.alloc Resource.attributeBag) = 1 ∧
    (main p).process.trace.count (Event.release Resource.attributeBag) = 1 ∧
    (main p).process.trace.count Event.MFShutdown = 1 ∧
    (main p).process.trace.count Event.CoUninitialize =
      (if SUCCEEDED p.coInitializeEx = true then 1 else 0) := by
  rw [main_enum_failed p hb hc hg hf]
  refine ⟨rfl, rfl, by simp [bytesOf], rfl, ?_, ?_, ?_, ?_⟩ <;>
    (unfold coTeardown; split_ifs <;> simp_all)

/-- C8 amended, at the sample platform whose enumerator fails. -/
theorem C8_enum_failure_amended_witness :
    (main enumRefused).process.cout = [0x5B, 0x0A, 0x5D, 0x0A] ∧
    (main enumRefused).exitCode = 0 :=
  ⟨(C8_enum_failure_amended enumRefused (by decide) (by decide) (by decide) (by decide)).1,
    (C8_enum_failure_amended enumRefused (by decide) (by decide) (by decide)
      (by decide)).2.2.2.1⟩

/-- C9. Resource release: in every run, a resource that the platform hands out
(the attribute bag, the handle array, a device handle, an attribute string) is
recorded as allocated once and as released once, and a resource that the
platform does not hand out is neither allocated nor released.  Replayed in
order, the record never releases a resource that is not live and leaves
nothing live when `main` returns. -/
theorem C9_resource_release (p : Platform) (r : Resource) :
    (handedOut p r →
      (main p).process.trace.count (Event.alloc r) = 1 ∧
      (main p).process.trace.count (Event.release r) = 1) ∧
    (¬ handedOut p r →
      (main p).process.trace.count (Event.alloc r) = 0 ∧
      (main p).process.trace.count (Event.release r) = 0) ∧
    ledger (main p).process.trace = some ∅ := by
  rcases trace_count p r with ⟨h, hc⟩ | ⟨h, hc⟩
  · exact ⟨fun _ => hc, fun hn => absurd h hn, ledger_main p⟩
  · exact ⟨fun hy => absurd hy h, fun _ => hc, ledger_main p⟩

/-- C9, at the sample platform: the friendly name of the first device is
allocated and released once, that of the second device, which the platform
does not supply, never. -/
theorem C9_resource_release_witness :
    ((main samplePlatform).process.trace.count
        (Event.alloc (Resource.wideString 0 AttrKey.friendlyName)) = 1 ∧
      (main samplePlatform).process.trace.count
        (Event.release (Resource.wideString 0 AttrKey.friendlyName)) = 1) ∧
    ((main samplePlatform).process.trace.count
        (Event.alloc (Resource.wideString 1 AttrKey.friendlyName)) = 0 ∧
      (main samplePlatform).process.trace.count
        (Event.release (Resource.wideString 1 AttrKey.friendlyName)) = 0) :=
  ⟨(C9_resource_release samplePlatform (Resource.wideString 0 AttrKey.friendlyName)).1
      (by decide),
    (C9_resource_release samplePlatform (Resource.wideString 1 AttrKey.friendlyName)).2.1
      (by decide)⟩

/-- C10. Teardown of the runtimes: `CoUninitialize` is called exactly once when
the component-object initialisation returned a success code and never
otherwise, in particular never after `RPC_E_CHANGED_MODE`; `MFShutdown` is
called exactly once when the media-framework startup was reached and
succeeded and never otherwise; and when both are called, `MFShutdown` comes
immediately before `CoUninitialize`, which ends the trace. -/
theorem C10_runtime_teardown (p : Platform) :
    (main p).process.trace.count Event.CoUninitialize =
      (if SUCCEEDED p.coInitializeEx = true then 1 else 0) ∧
    (p.coInitializeEx = RPC_E_CHANGED_MODE →
      Event.CoUninitialize ∉ (main p).process.trace) ∧
    (main p).process.trace.count Event.MFShutdown =
      (if comUsable p ∧ SUCCEEDED p.mfStartup = true then 1 else 0) ∧
    (Event.MFShutdown ∈ (main p).process.trace →
      Event.CoUninitialize ∈ (main p).process.trace →
      ∃ before, (main p).process.trace = before ++ [Event.MFShutdown, Event.CoUninitialize] ∧
        Event.MFShutdown ∉ before ∧ Event.CoUninitialize ∉ before) := by
  have hcount : (main p).process.trace.count Event.CoUninitialize =
      (if SUCCEEDED p.coInitializeEx = true then 1 else 0) := by
    rcases trace_cases p with ⟨hu, ht⟩ | ⟨hu, hb, ht⟩ | ⟨hb, ht⟩
    · have : ¬ SUCCEEDED p.coInitializeEx = true := fun h => hu (Or.inl h)
      simp [ht, this]
    · simp [ht, coTeardown_count]
    · simp [ht, List.count_append, coTeardown_count,
        count_eq_zero_of_teardown _ Event.CoUninitialize (bodyEvents_not_teardown p) rfl]
  refine ⟨hcount, ?_, ?_, ?_⟩
  · intro he
    rw [← List.count_eq_zero, hcount, he, not_succeeded_changed_mode]
    rfl
  · rcases trace_cases p with ⟨hu, ht⟩ | ⟨hu, hb, ht⟩ | ⟨hb, ht⟩
    · simp [ht, hu]
    · have hb' : ¬ (comUsable p ∧ SUCCEEDED p.mfStartup = true) := hb
      simp [ht, coTeardown_count_shutdown, hb']
    · have hb' : comUsable p ∧ SUCCEEDED p.mfStartup = true := hb
      simp [ht, List.count_append, coTeardown_count_shutdown, hb',
        count_eq_zero_of_teardown _ Event.MFShutdown (bodyEvents_not_teardown p) rfl]
  · intro hm hc
    have hs : SUCCEEDED p.coInitializeEx = true := by
      by_contra hne
      have : (main p).process.trace.count Event.CoUninitialize = 0 := by simp [hcount, hne]
      exact (List.count_eq_zero.1 this) hc
    have hnm : ∀ e, e.isTeardown = true → e ∉ bodyEvents p := fun e he =>
      List.count_eq_zero.1 (count_eq_zero_of_teardown _ _ (bodyEvents_not_teardown p) he)
    rcases trace_cases p with ⟨hu, ht⟩ | ⟨hu, hb, ht⟩ | ⟨hb, ht⟩
    · rw [ht] at hm; simp at hm
    · rw [ht, coTeardown, if_pos hs] at hm; simp at hm
    · refine ⟨bodyEvents p, ?_, hnm _ rfl, hnm _ rfl⟩
      rw [ht, coTeardown, if_pos hs]
      simp

/-- C10, at the sample platforms: a full run tears both runtimes down, a run
in a foreign apartment never calls `CoUninitialize`. -/
theorem C10_runtime_teardown_witness :
    (∃ before, (main samplePlatform).process.trace =
        before ++ [Event.MFShutdown, Event.CoUninitialize] ∧
        Event.MFShutdown ∉ before ∧ Event.CoUninitialize ∉ before) ∧
    Event.CoUninitialize ∉ (main startupRefused).process.trace :=
  ⟨(C10_runtime_teardown samplePlatform).2.2.2 (by decide) (by decide),
    (C10_runtime_teardown startupRefused).2.1 (by decide)⟩

end FrameTrace
